import Mathlib

/-!
Lights Out puzzle engine (`src/main.cpp`).

Shallow embedding of `GameBoard<Width, Height>` and of the scramble loop of
`consequence_game`, followed by the properties established about them.

* `std::array<std::array<T, height>, width>` is a total table indexed by
  `Fin width` and `Fin height`; the checked accessor `.at` is the only way the
  source reads or writes it and is modelled by `at2` / `assign2`.
* `std::size_t` is a 64-bit unsigned integer: `++move_count` wraps modulo `2 ^ 64`.
* A member function that can throw `std::out_of_range` is a function from the
  board before the call to the pair of its outcome and the board after the call,
  so that the state left behind by a throwing call stays observable.
-/

namespace LightsOut

/-- Number of values of `std::size_t` (64-bit target); unsigned arithmetic wraps modulo it. -/
def SIZE_MOD : Nat := 2 ^ 64

/-- The only exception the engine raises: `std::out_of_range`, thrown by `std::array::at`. -/
inductive Error where
  | out_of_range
  deriving DecidableEq, Repr

/-- The data members of `GameBoard<width, height>`. -/
structure GameBoard (width height : Nat) where
  strings : Fin width → Fin height → String
  values : Fin width → Fin height → Bool
  move_count : Nat

/-- A mutating member function: outcome (normal return or exception) and the state afterwards. -/
def Eff (σ α : Type) : Type := σ → Except Error α × σ

instance instMonadEff (σ : Type) : Monad (Eff σ) where
  pure a := fun s => (Except.ok a, s)
  bind m f := fun s =>
    match m s with
    | (Except.ok a, s1) => f a s1
    | (Except.error e, s1) => (Except.error e, s1)

/-- Checked read `arr.at(x).at(y)`. -/
def at2 {W H : Nat} {α : Type} (arr : Fin W → Fin H → α) (x y : Nat) : Except Error α :=
  if hx : x < W then
    if hy : y < H then Except.ok (arr ⟨x, hx⟩ ⟨y, hy⟩) else Except.error Error.out_of_range
  else Except.error Error.out_of_range

/-- Checked write `arr.at(x).at(y) = v`: the table afterwards, or the exception. -/
def assign2 {W H : Nat} {α : Type} (arr : Fin W → Fin H → α) (x y : Nat) (v : α) :
    Except Error (Fin W → Fin H → α) :=
  if x < W then
    if y < H then Except.ok (fun a c => if a.val = x ∧ c.val = y then v else arr a c)
    else Except.error Error.out_of_range
  else Except.error Error.out_of_range

namespace GameBoard

variable {W H : Nat}

/-- `bool get(x, y) const { return values.at(x).at(y); }` -/
def get (b : GameBoard W H) (x y : Nat) : Except Error Bool := at2 b.values x y

/-- `std::string &get_string(x, y) { return strings.at(x).at(y); }` used as a read. -/
def get_string (b : GameBoard W H) (x y : Nat) : Except Error String := at2 b.strings x y

/-- `set(x, y, new_value)`: `get(x, y) = new_value;` then the display string is overwritten. -/
def set (x y : Nat) (new_value : Bool) : Eff (GameBoard W H) Unit := fun b =>
  match assign2 b.values x y new_value with
  | Except.error e => (Except.error e, b)
  | Except.ok vs =>
    let b1 : GameBoard W H := { b with values := vs }
    match assign2 b1.strings x y (if new_value then "-*-" else "   ") with
    | Except.error e => (Except.error e, b1)
    | Except.ok ss => (Except.ok (), { b1 with strings := ss })

/-- `toggle(x, y) { set(x, y, !get(x, y)); }` -/
def toggle (x y : Nat) : Eff (GameBoard W H) Unit := fun b =>
  match b.get x y with
  | Except.error e => (Except.error e, b)
  | Except.ok v => set x y (!v) b

/-- The statement `++move_count;` on a `std::size_t`. -/
def incr_move_count : Eff (GameBoard W H) Unit := fun b =>
  (Except.ok (), { b with move_count := (b.move_count + 1) % SIZE_MOD })

/-- `press(x, y)`, statement by statement. The subtractions `x - 1`, `y - 1` are guarded by
`x > 0`, `y > 0`; `width - 1` and `height - 1` are evaluated only after `toggle(x, y)` returned
normally, that is with `width ≥ 1` and `height ≥ 1`, so none of them wraps. -/
def press (x y : Nat) : Eff (GameBoard W H) Unit := do
  incr_move_count
  toggle x y
  (if x > 0 then toggle (x - 1) y else pure ())
  (if y > 0 then toggle x (y - 1) else pure ())
  (if x < W - 1 then toggle (x + 1) y else pure ())
  (if y < H - 1 then toggle x (y + 1) else pure ())

/-- The counted loop `for (std::size_t i = 0; i < n; ++i) { body(i); }`, the index running
through the given list; an exception thrown by the body leaves the loop. -/
def for_each {σ : Type} : List Nat → (Nat → Eff σ Unit) → Eff σ Unit
  | [], _ => pure ()
  | i :: rest, body => do
    body i
    for_each rest body

/-- `visit(visitor)`: the visitor is applied to every coordinate, `x` outermost. -/
def visit (visitor : Nat → Nat → Eff (GameBoard W H) Unit) : Eff (GameBoard W H) Unit :=
  for_each (List.range W) fun x => for_each (List.range H) fun y => visitor x y

/-- State of the members before the constructor body runs: default-constructed (empty)
strings, `values{}` value-initialised to `false`, `move_count{ 0 }`. -/
def zero_init (W H : Nat) : GameBoard W H :=
  { strings := fun _ _ => "", values := fun _ _ => false, move_count := 0 }

/-- The constructor `GameBoard()`: `visit` with the visitor `gameboard.set(x, y, true)`.
An exception leaving the constructor means that no object exists. -/
def construct (W H : Nat) : Except Error (GameBoard W H) :=
  match visit (fun x y => set x y true) (zero_init W H) with
  | (Except.ok _, b) => Except.ok b
  | (Except.error e, _) => Except.error e

/-- `update_strings()`: `set(x, y, get(x, y))` for every coordinate. -/
def update_strings : Eff (GameBoard W H) Unit :=
  for_each (List.range W) fun x => for_each (List.range H) fun y => fun b =>
    match b.get x y with
    | Except.error e => (Except.error e, b)
    | Except.ok v => set x y v b

/-- Inner loop of `solved()` over `y`: `Except.ok false` is the early `return false`,
`Except.ok true` means that the loop ran to its end. -/
def solved_column (b : GameBoard W H) (x : Nat) : List Nat → Except Error Bool
  | [] => Except.ok true
  | y :: rest =>
    match b.get x y with
    | Except.error e => Except.error e
    | Except.ok v => if !v then Except.ok false else solved_column b x rest

/-- Outer loop of `solved()` over `x`. -/
def solved_from (b : GameBoard W H) : List Nat → Except Error Bool
  | [] => Except.ok true
  | x :: rest =>
    match solved_column b x (List.range H) with
    | Except.error e => Except.error e
    | Except.ok false => Except.ok false
    | Except.ok true => solved_from b rest

/-- `bool solved() const`. -/
def solved (b : GameBoard W H) : Except Error Bool := solved_from b (List.range W)

/-- The calls `press(x₁, y₁); press(x₂, y₂); …` made one after the other. -/
def press_seq : List (Nat × Nat) → Eff (GameBoard W H) Unit
  | [] => pure ()
  | c :: rest => do
    press c.1 c.2
    press_seq rest

/-- `randomization_iterations` of `reset_board`. -/
def randomization_iterations : Nat := 100

/-- Body of the do-while loop of `reset_board`, run for the `k`-th time: one hundred calls
`gb.press(x(gen32), y(gen32))`. The random source is the stream `draws` of coordinate pairs;
the `n`-th call of `press` made by the scramble receives `draws n`. -/
def scramble_batch (draws : Nat → Nat × Nat) (k : Nat) : Eff (GameBoard W H) Unit :=
  for_each (List.range randomization_iterations) fun i =>
    press (draws (k * randomization_iterations + i)).1 (draws (k * randomization_iterations + i)).2

/-- The loop `do { batch } while (gb.solved());` with at most `fuel` executions of the body;
`none` when the loop is still running after them. -/
def scramble_loop (draws : Nat → Nat × Nat) :
    Nat → Nat → GameBoard W H → Option (Except Error Unit × GameBoard W H)
  | 0, _, _ => none
  | fuel + 1, k, b =>
    match scramble_batch draws k b with
    | (Except.error e, b1) => some (Except.error e, b1)
    | (Except.ok _, b1) =>
      match b1.solved with
      | Except.error e => some (Except.error e, b1)
      | Except.ok true => scramble_loop draws fuel (k + 1) b1
      | Except.ok false => some (Except.ok (), b1)

/-- The lambda `reset_board`: the scramble loop, then `gb.move_count = 0;`. The closing
`update_moves(gb)` only writes the text shown next to the grid. -/
def reset_board (draws : Nat → Nat × Nat) (fuel : Nat) (b : GameBoard W H) :
    Option (Except Error Unit × GameBoard W H) :=
  match scramble_loop draws fuel 0 b with
  | none => none
  | some (Except.error e, b1) => some (Except.error e, b1)
  | some (Except.ok _, b1) => some (Except.ok (), { b1 with move_count := 0 })

/-- Callback of the button of cell `(x, y)` built by `make_buttons`:
`if (!gb.solved()) { gb.press(x, y); }` (the call `update_moves(gb)` that follows only
writes the text shown next to the grid). -/
def button_callback (x y : Nat) : Eff (GameBoard W H) Unit := fun b =>
  match b.solved with
  | Except.error e => (Except.error e, b)
  | Except.ok s => if !s then press x y b else (Except.ok (), b)

/-! ## Vocabulary of the statements -/

/-- The executions number `k`, `k + 1`, …, `k + n - 1` of the body of the scramble loop, run one
after the other; the board they leave is the one `gb.solved()` inspects after the last of them. -/
def scramble_batches (draws : Nat → Nat × Nat) : Nat → Nat → Eff (GameBoard W H) Unit
  | _, 0 => pure ()
  | k, n + 1 => do
    scramble_batch draws k
    scramble_batches draws (k + 1) n

/-- The board with every cell lit, every display string `"-*-"` and the counter at 0: the
state a freshly constructed board is in. -/
def all_lit (W H : Nat) : GameBoard W H :=
  { strings := fun _ _ => "-*-", values := fun _ _ => true, move_count := 0 }

/-- Cells reached by the plus shape centred at `(x, y)`. -/
def in_plus (x y a c : Nat) : Bool :=
  decide ((a = x ∧ c = y) ∨ (a + 1 = x ∧ c = y) ∨ (a = x + 1 ∧ c = y) ∨
    (a = x ∧ c + 1 = y) ∨ (a = x ∧ c = y + 1))

/-- The board in which exactly the cells selected by `p` are negated, with their display
strings rewritten accordingly. -/
def flip_where (b : GameBoard W H) (p : Nat → Nat → Bool) : GameBoard W H :=
  { strings := fun a c =>
      if p a.val c.val then (if b.values a c then "   " else "-*-") else b.strings a c
    values := fun a c => xor (b.values a c) (p a.val c.val)
    move_count := b.move_count }

/-- The callbacks of the buttons of the listed cells, invoked one after the other. -/
def button_seq : List (Nat × Nat) → Eff (GameBoard W H) Unit
  | [] => pure ()
  | c :: rest => do
    button_callback c.1 c.2
    button_seq rest

/-- A call of one of the mutating member functions `set`, `toggle`, `press`. -/
inductive Call where
  | set (x y : Nat) (new_value : Bool)
  | toggle (x y : Nat)
  | press (x y : Nat)
  deriving DecidableEq, Repr

/-- The coordinate a call addresses. -/
def call_target : Call → Nat × Nat
  | Call.set x y _ => (x, y)
  | Call.toggle x y => (x, y)
  | Call.press x y => (x, y)

/-- The member function a call stands for. -/
def run_call : Call → Eff (GameBoard W H) Unit
  | Call.set x y v => set x y v
  | Call.toggle x y => toggle x y
  | Call.press x y => press x y

/-- The listed calls made one after the other. -/
def run_calls : List Call → Eff (GameBoard W H) Unit
  | [] => pure ()
  | c :: rest => do
    run_call c
    run_calls rest

/-- Every display string is the one `set` writes for the value of its cell. -/
def strings_mirror (b : GameBoard W H) : Prop :=
  ∀ (a : Fin W) (c : Fin H), b.strings a c = if b.values a c then "-*-" else "   "

instance instDecidableStringsMirror (b : GameBoard W H) : Decidable (strings_mirror b) :=
  inferInstanceAs (Decidable (∀ (a : Fin W) (c : Fin H),
    b.strings a c = if b.values a c then "-*-" else "   "))

/-! ## Auxiliary facts -/

theorem bind_run {σ α β : Type} (m : Eff σ α) (f : α → Eff σ β) (s : σ) :
    (m >>= f) s = match m s with
      | (Except.ok a, s1) => f a s1
      | (Except.error e, s1) => (Except.error e, s1) := rfl

theorem pure_run {σ α : Type} (a : α) (s : σ) :
    (pure a : Eff σ α) s = (Except.ok a, s) := rfl

theorem set_ok (b : GameBoard W H) (x y : Nat) (v : Bool) (hx : x < W) (hy : y < H) :
    set x y v b = (Except.ok (),
      { strings := fun a c =>
          if a.val = x ∧ c.val = y then (if v then "-*-" else "   ") else b.strings a c
        values := fun a c => if a.val = x ∧ c.val = y then v else b.values a c
        move_count := b.move_count }) := by
  simp [set, assign2, hx, hy]

theorem set_err (b : GameBoard W H) (x y : Nat) (v : Bool) (h : ¬ (x < W ∧ y < H)) :
    set x y v b = (Except.error Error.out_of_range, b) := by
  unfold set assign2
  by_cases hx : x < W
  · have hy : ¬ y < H := fun hy => h ⟨hx, hy⟩
    simp [hx, hy]
  · simp [hx]

theorem get_ok (b : GameBoard W H) (x y : Nat) (hx : x < W) (hy : y < H) :
    b.get x y = Except.ok (b.values ⟨x, hx⟩ ⟨y, hy⟩) := by
  simp [get, at2, hx, hy]

theorem get_err (b : GameBoard W H) (x y : Nat) (h : ¬ (x < W ∧ y < H)) :
    b.get x y = Except.error Error.out_of_range := by
  unfold get at2
  by_cases hx : x < W
  · have hy : ¬ y < H := fun hy => h ⟨hx, hy⟩
    simp [hx, hy]
  · simp [hx]

theorem toggle_ok (b : GameBoard W H) (x y : Nat) (hx : x < W) (hy : y < H) :
    toggle x y b = (Except.ok (), flip_where b fun a c => decide (a = x ∧ c = y)) := by
  unfold toggle
  rw [get_ok b x y hx hy]
  simp only [set_ok _ _ _ _ hx hy, flip_where]
  congr 2
  · funext a c
    by_cases h : a.val = x ∧ c.val = y
    · obtain ⟨h1, h2⟩ := h
      have ha : a = ⟨x, hx⟩ := Fin.ext h1
      have hc : c = ⟨y, hy⟩ := Fin.ext h2
      subst ha hc
      cases b.values ⟨x, hx⟩ ⟨y, hy⟩ <;> simp
    · simp [h]
  · funext a c
    by_cases h : a.val = x ∧ c.val = y
    · obtain ⟨h1, h2⟩ := h
      have ha : a = ⟨x, hx⟩ := Fin.ext h1
      have hc : c = ⟨y, hy⟩ := Fin.ext h2
      subst ha hc
      simp
    · simp [h]

theorem toggle_err (b : GameBoard W H) (x y : Nat) (h : ¬ (x < W ∧ y < H)) :
    toggle x y b = (Except.error Error.out_of_range, b) := by
  unfold toggle
  rw [get_err b x y h]


theorem flip_where_flip_where (b : GameBoard W H) (p q : Nat → Nat → Bool)
    (h : ∀ a c, ¬ (p a c = true ∧ q a c = true)) :
    flip_where (flip_where b p) q = flip_where b fun a c => p a c || q a c := by
  unfold flip_where
  simp only [GameBoard.mk.injEq, and_true]
  constructor
  · funext a c
    have h0 := h a.val c.val
    by_cases hp : p a.val c.val = true <;> by_cases hq : q a.val c.val = true <;>
      simp_all
  · funext a c
    have h0 := h a.val c.val
    by_cases hp : p a.val c.val = true <;> by_cases hq : q a.val c.val = true <;>
      simp_all

theorem flip_where_congr (b : GameBoard W H) (p q : Nat → Nat → Bool)
    (h : ∀ a c, a < W → c < H → p a c = q a c) : flip_where b p = flip_where b q := by
  unfold flip_where
  simp only [GameBoard.mk.injEq, and_true]
  constructor
  · funext a c
    rw [h a.val c.val a.isLt c.isLt]
  · funext a c
    rw [h a.val c.val a.isLt c.isLt]

theorem flip_where_false (b : GameBoard W H) : flip_where b (fun _ _ => false) = b := by
  cases b
  simp [flip_where]

theorem toggle_if (s : GameBoard W H) (x y : Nat) (g : Prop) [Decidable g]
    (h : g → x < W ∧ y < H) :
    (if g then toggle x y else pure PUnit.unit : Eff (GameBoard W H) PUnit) s =
      (Except.ok (), flip_where s fun a c => decide (g ∧ a = x ∧ c = y)) := by
  by_cases hg : g
  · simp only [hg, if_true, true_and]
    exact toggle_ok s x y (h hg).1 (h hg).2
  · simp only [hg, if_false, false_and, decide_False, pure_run, flip_where_false]

theorem press_run (b : GameBoard W H) (x y : Nat) (hx : x < W) (hy : y < H) :
    press x y b = (Except.ok (),
      flip_where { b with move_count := (b.move_count + 1) % SIZE_MOD } (in_plus x y)) := by
  have t1 := fun s : GameBoard W H => toggle_if s (x - 1) y (x > 0) (fun _ => ⟨by omega, hy⟩)
  have t2 := fun s : GameBoard W H => toggle_if s x (y - 1) (y > 0) (fun _ => ⟨hx, by omega⟩)
  have t3 := fun s : GameBoard W H =>
    toggle_if s (x + 1) y (x < W - 1) (fun h => ⟨by omega, hy⟩)
  have t4 := fun s : GameBoard W H =>
    toggle_if s x (y + 1) (y < H - 1) (fun h => ⟨hx, by omega⟩)
  unfold press
  simp only [bind_run, incr_move_count, toggle_ok _ x y hx hy, t1, t2, t3, t4]
  rw [flip_where_flip_where, flip_where_flip_where, flip_where_flip_where,
    flip_where_flip_where]
  · refine congrArg (Prod.mk _) (flip_where_congr _ _ _ ?_)
    intro a c ha hc
    apply Bool.eq_iff_iff.mpr
    simp only [in_plus, Bool.or_eq_true, decide_eq_true_eq]
    omega
  all_goals
    intro a c
    simp only [Bool.or_eq_true, decide_eq_true_eq]
    omega

theorem press_err (b : GameBoard W H) (x y : Nat) (h : ¬ (x < W ∧ y < H)) :
    press x y b = (Except.error Error.out_of_range,
      { b with move_count := (b.move_count + 1) % SIZE_MOD }) := by
  unfold press
  simp only [bind_run, incr_move_count, toggle_err _ x y h]

/-! ## The press rule -/

/-- C1: for every board size, board state and in-range `(x, y)`, `press(x, y)` returns normally
and a cell `(a, c)` of the grid ends with the negated value iff it is `(x, y)` or one of
`(x-1, y)`, `(x+1, y)`, `(x, y-1)`, `(x, y+1)`; every other cell keeps its value. Cells are
indexed inside the grid, so the plus shape is clipped at the edges without wraparound. -/
theorem press_toggles_plus_shape (b : GameBoard W H) (x y : Nat) (hx : x < W) (hy : y < H) :
    (press x y b).1 = Except.ok () ∧
    ∀ (a : Fin W) (c : Fin H),
      ((press x y b).2.values a c = (!b.values a c) ↔
        ((a.val = x ∧ c.val = y) ∨ (a.val + 1 = x ∧ c.val = y) ∨ (a.val = x + 1 ∧ c.val = y) ∨
          (a.val = x ∧ c.val + 1 = y) ∨ (a.val = x ∧ c.val = y + 1))) ∧
      (¬ ((a.val = x ∧ c.val = y) ∨ (a.val + 1 = x ∧ c.val = y) ∨ (a.val = x + 1 ∧ c.val = y) ∨
          (a.val = x ∧ c.val + 1 = y) ∨ (a.val = x ∧ c.val = y + 1)) →
        (press x y b).2.values a c = b.values a c) := by
  rw [press_run b x y hx hy]
  refine ⟨rfl, fun a c => ?_⟩
  simp only [flip_where, in_plus]
  by_cases h : (a.val = x ∧ c.val = y) ∨ (a.val + 1 = x ∧ c.val = y) ∨
      (a.val = x + 1 ∧ c.val = y) ∨ (a.val = x ∧ c.val + 1 = y) ∨ (a.val = x ∧ c.val = y + 1)
  · simp [h]
  · simp [h]

theorem press_toggles_plus_shape_witness :
    (press 2 0 (zero_init 3 3)).1 = Except.ok () ∧
    ∀ (a : Fin 3) (c : Fin 3),
      ((press 2 0 (zero_init 3 3)).2.values a c = (!(zero_init 3 3).values a c) ↔
        ((a.val = 2 ∧ c.val = 0) ∨ (a.val + 1 = 2 ∧ c.val = 0) ∨ (a.val = 2 + 1 ∧ c.val = 0) ∨
          (a.val = 2 ∧ c.val + 1 = 0) ∨ (a.val = 2 ∧ c.val = 0 + 1))) ∧
      (¬ ((a.val = 2 ∧ c.val = 0) ∨ (a.val + 1 = 2 ∧ c.val = 0) ∨ (a.val = 2 + 1 ∧ c.val = 0) ∨
          (a.val = 2 ∧ c.val + 1 = 0) ∨ (a.val = 2 ∧ c.val = 0 + 1)) →
        (press 2 0 (zero_init 3 3)).2.values a c = (zero_init 3 3).values a c) :=
  press_toggles_plus_shape (zero_init 3 3) 2 0 (by decide) (by decide)

/-- C2 (as stated, refuted): on the 3x3 board whose counter holds the largest `std::size_t`,
pressing the in-range cell `(0, 0)` twice leaves `move_count == 1`, which is not the former
value plus 2. -/
theorem press_twice_counter_wraps :
    (0 < 3 ∧ 0 < 3) ∧
    ((press 0 0 >>= fun _ => press 0 0)
      ({ zero_init 3 3 with move_count := 18446744073709551615 })).2.move_count = 1 ∧
    ¬ ((press 0 0 >>= fun _ => press 0 0)
      ({ zero_init 3 3 with move_count := 18446744073709551615 })).2.move_count =
        ({ zero_init 3 3 with move_count := 18446744073709551615 } : GameBoard 3 3).move_count
          + 2 := by
  decide

/-- C2 (amended): for every board state and in-range `(x, y)`, pressing `(x, y)` twice in a row
returns normally both times and restores exactly the prior cell grid; `move_count` becomes
`(move_count + 2) mod 2^64`, which is the former value plus 2 whenever that sum fits in a
`std::size_t`. -/
theorem press_twice_restores_grid (b : GameBoard W H) (x y : Nat) (hx : x < W) (hy : y < H) :
    ((press x y >>= fun _ => press x y) b).1 = Except.ok () ∧
    ((press x y >>= fun _ => press x y) b).2.values = b.values ∧
    ((press x y >>= fun _ => press x y) b).2.move_count = (b.move_count + 2) % SIZE_MOD ∧
    (b.move_count + 2 < SIZE_MOD →
      ((press x y >>= fun _ => press x y) b).2.move_count = b.move_count + 2) := by
  have e : (press x y >>= fun _ => press x y) b = (Except.ok (), flip_where
      { flip_where { b with move_count := (b.move_count + 1) % SIZE_MOD } (in_plus x y) with
        move_count := ((b.move_count + 1) % SIZE_MOD + 1) % SIZE_MOD } (in_plus x y)) := by
    rw [bind_run, press_run _ x y hx hy]
    exact press_run _ x y hx hy
  rw [e]
  refine ⟨rfl, ?_, ?_, ?_⟩
  · funext a c
    simp [flip_where]
  · simp only [flip_where, SIZE_MOD]
    omega
  · intro h
    simp only [flip_where, SIZE_MOD] at h ⊢
    omega

theorem press_twice_restores_grid_witness :
    ((press 1 2 >>= fun _ => press 1 2) (zero_init 3 3)).1 = Except.ok () ∧
    ((press 1 2 >>= fun _ => press 1 2) (zero_init 3 3)).2.values = (zero_init 3 3).values ∧
    ((press 1 2 >>= fun _ => press 1 2) (zero_init 3 3)).2.move_count =
      ((zero_init 3 3 : GameBoard 3 3).move_count + 2) % SIZE_MOD ∧
    ((zero_init 3 3 : GameBoard 3 3).move_count + 2 < SIZE_MOD →
      ((press 1 2 >>= fun _ => press 1 2) (zero_init 3 3)).2.move_count =
        (zero_init 3 3 : GameBoard 3 3).move_count + 2) :=
  press_twice_restores_grid (zero_init 3 3) 1 2 (by decide) (by decide)

/-- C3: for every board state and every two in-range coordinates (equal or not), `press(a)`
followed by `press(b)` and `press(b)` followed by `press(a)` both return normally and leave the
same cell grid. -/
theorem press_commute (b : GameBoard W H) (x1 y1 x2 y2 : Nat)
    (h1 : x1 < W ∧ y1 < H) (h2 : x2 < W ∧ y2 < H) :
    ((press x1 y1 >>= fun _ => press x2 y2) b).1 = Except.ok () ∧
    ((press x2 y2 >>= fun _ => press x1 y1) b).1 = Except.ok () ∧
    ((press x1 y1 >>= fun _ => press x2 y2) b).2.values =
      ((press x2 y2 >>= fun _ => press x1 y1) b).2.values := by
  have e : ∀ (u v u2 v2 : Nat), u < W ∧ v < H → u2 < W ∧ v2 < H →
      (press u v >>= fun _ => press u2 v2) b = (Except.ok (), flip_where
        { flip_where { b with move_count := (b.move_count + 1) % SIZE_MOD } (in_plus u v) with
          move_count := ((b.move_count + 1) % SIZE_MOD + 1) % SIZE_MOD } (in_plus u2 v2)) := by
    intro u v u2 v2 hu hv
    rw [bind_run, press_run _ u v hu.1 hu.2]
    exact press_run _ u2 v2 hv.1 hv.2
  rw [e x1 y1 x2 y2 h1 h2, e x2 y2 x1 y1 h2 h1]
  refine ⟨rfl, rfl, ?_⟩
  funext a c
  simp only [flip_where]
  cases b.values a c <;> cases in_plus x1 y1 a.val c.val <;>
    cases in_plus x2 y2 a.val c.val <;> rfl

theorem press_commute_witness :
    ((press 0 2 >>= fun _ => press 1 2) (zero_init 3 3)).1 = Except.ok () ∧
    ((press 1 2 >>= fun _ => press 0 2) (zero_init 3 3)).1 = Except.ok () ∧
    ((press 0 2 >>= fun _ => press 1 2) (zero_init 3 3)).2.values =
      ((press 1 2 >>= fun _ => press 0 2) (zero_init 3 3)).2.values :=
  press_commute (zero_init 3 3) 0 2 1 2 (by decide) (by decide)

/-! ## Sequences of presses -/

theorem press_seq_cons (b : GameBoard W H) (p : Nat × Nat) (l : List (Nat × Nat))
    (hp : p.1 < W ∧ p.2 < H) :
    press_seq (p :: l) b = press_seq l
      (flip_where { b with move_count := (b.move_count + 1) % SIZE_MOD } (in_plus p.1 p.2)) := by
  show (press p.1 p.2 >>= fun _ => press_seq l) b = _
  rw [bind_run, press_run b p.1 p.2 hp.1 hp.2]

theorem parity_succ (n : Nat) : decide ((n + 1) % 2 = 1) = !decide (n % 2 = 1) := by
  rcases Nat.mod_two_eq_zero_or_one n with h | h
  · have : (n + 1) % 2 = 1 := by omega
    simp [h, this]
  · have : (n + 1) % 2 = 0 := by omega
    simp [h, this]

theorem press_seq_run (l : List (Nat × Nat)) (b : GameBoard W H)
    (hin : ∀ p ∈ l, p.1 < W ∧ p.2 < H) :
    (press_seq l b).1 = Except.ok () ∧
    ∀ (a : Fin W) (c : Fin H), (press_seq l b).2.values a c =
      xor (b.values a c) (decide (l.countP (fun p => in_plus p.1 p.2 a.val c.val) % 2 = 1)) := by
  induction l generalizing b with
  | nil =>
    refine ⟨rfl, fun a c => ?_⟩
    simp [press_seq, pure_run]
  | cons p l ih =>
    have hp := hin p (List.mem_cons_self p l)
    rw [press_seq_cons b p l hp]
    obtain ⟨h1, h2⟩ := ih _ (fun q hq => hin q (List.mem_cons_of_mem p hq))
    refine ⟨h1, fun a c => ?_⟩
    rw [h2 a c, List.countP_cons]
    simp only [flip_where]
    by_cases hc : in_plus p.1 p.2 a.val c.val = true
    · simp only [hc, if_true, parity_succ]
      cases b.values a c <;>
        cases decide (List.countP (fun p => in_plus p.1 p.2 a.val c.val) l % 2 = 1) <;> rfl
    · simp only [hc, if_false, Nat.add_zero]
      simp only [Bool.not_eq_true] at hc
      simp [hc]

theorem in_plus_indicator (x y a c : Nat) :
    (if in_plus x y a c = true then 1 else 0) =
      (if ((x, y) == (a, c)) = true then 1 else 0) +
        (if ((x, y) == (a + 1, c)) = true then 1 else 0) +
        (if 0 < a then (if ((x, y) == (a - 1, c)) = true then 1 else 0) else 0) +
        (if ((x, y) == (a, c + 1)) = true then 1 else 0) +
        (if 0 < c then (if ((x, y) == (a, c - 1)) = true then 1 else 0) else 0) := by
  simp only [in_plus, beq_iff_eq, Prod.mk.injEq, decide_eq_true_eq]
  by_cases h1 : x = a <;> by_cases h2 : y = c <;> by_cases h3 : x = a + 1 <;>
    by_cases h4 : y = c + 1 <;> by_cases h5 : a = x + 1 <;> by_cases h6 : c = y + 1 <;>
    first
    | omega
    | (simp only [h1, h2, h3, h4, h5, h6]
       simp
       all_goals first
         | omega
         | (split_ifs <;> omega))

theorem countP_in_plus (l : List (Nat × Nat)) (a c : Nat) :
    l.countP (fun p => in_plus p.1 p.2 a c) =
      l.count (a, c) + l.count (a + 1, c) + (if 0 < a then l.count (a - 1, c) else 0) +
        l.count (a, c + 1) + (if 0 < c then l.count (a, c - 1) else 0) := by
  induction l with
  | nil => simp
  | cons p l ih =>
    obtain ⟨x, y⟩ := p
    have hi := in_plus_indicator x y a c
    rw [List.countP_cons, List.count_cons, List.count_cons, List.count_cons, List.count_cons,
      List.count_cons]
    by_cases ha : 0 < a <;> by_cases hc : 0 < c <;>
      simp only [ha, hc, if_true, if_false] at hi ih ⊢ <;> omega

theorem parity_congr (v : Bool) (n m : Nat) (h : n % 2 = m % 2) :
    xor v (decide (n % 2 = 1)) = xor v (decide (m % 2 = 1)) := by
  rw [h]

theorem press_seq_values_congr (b : GameBoard W H) (l1 l2 : List (Nat × Nat))
    (h1 : ∀ p ∈ l1, p.1 < W ∧ p.2 < H) (h2 : ∀ p ∈ l2, p.1 < W ∧ p.2 < H)
    (hpar : ∀ p, l1.count p % 2 = l2.count p % 2) :
    (press_seq l1 b).2.values = (press_seq l2 b).2.values := by
  funext a c
  rw [(press_seq_run l1 b h1).2 a c, (press_seq_run l2 b h2).2 a c, countP_in_plus,
    countP_in_plus]
  have e1 := hpar (a.val, c.val)
  have e2 := hpar (a.val + 1, c.val)
  have e3 := hpar (a.val - 1, c.val)
  have e4 := hpar (a.val, c.val + 1)
  have e5 := hpar (a.val, c.val - 1)
  apply parity_congr
  by_cases ha : 0 < a.val <;> by_cases hc : 0 < c.val <;>
    simp only [ha, hc, if_true, if_false] <;> omega

/-- C4: for every board state and every two finite sequences of in-range presses in which each
coordinate occurs with the same parity, both sequences return normally and leave the same cell
grid (the grid depends only on the parity of the number of occurrences of each coordinate); in
particular a sequence in which every coordinate occurs an even number of times, in any order
or interleaving, returns the cell grid to exactly its prior state. -/
theorem press_seq_parity (b : GameBoard W H) (l1 l2 : List (Nat × Nat))
    (h1 : ∀ p ∈ l1, p.1 < W ∧ p.2 < H) (h2 : ∀ p ∈ l2, p.1 < W ∧ p.2 < H)
    (hpar : ∀ p, l1.count p % 2 = l2.count p % 2) :
    (press_seq l1 b).1 = Except.ok () ∧ (press_seq l2 b).1 = Except.ok () ∧
    (press_seq l1 b).2.values = (press_seq l2 b).2.values ∧
    ((∀ p, l1.count p % 2 = 0) → (press_seq l1 b).2.values = b.values) := by
  refine ⟨(press_seq_run l1 b h1).1, (press_seq_run l2 b h2).1,
    press_seq_values_congr b l1 l2 h1 h2 hpar, fun hev => ?_⟩
  have e := press_seq_values_congr b l1 [] h1 (fun p hp => absurd hp (List.not_mem_nil p))
    (fun p => by simpa using hev p)
  rw [e]
  rfl

theorem press_seq_parity_witness :
    (press_seq [(1, 0), (1, 2), (1, 0), (2, 2), (1, 2), (1, 2)] (zero_init 3 3)).1
      = Except.ok () ∧
    (press_seq [(2, 2), (1, 2)] (zero_init 3 3)).1 = Except.ok () ∧
    (press_seq [(1, 0), (1, 2), (1, 0), (2, 2), (1, 2), (1, 2)] (zero_init 3 3)).2.values =
      (press_seq [(2, 2), (1, 2)] (zero_init 3 3)).2.values ∧
    ((∀ p, [(1, 0), (1, 2), (1, 0), (2, 2), (1, 2), (1, 2)].count p % 2 = 0) →
      (press_seq [(1, 0), (1, 2), (1, 0), (2, 2), (1, 2), (1, 2)] (zero_init 3 3)).2.values =
        (zero_init 3 3).values) :=
  press_seq_parity (zero_init 3 3) [(1, 0), (1, 2), (1, 0), (2, 2), (1, 2), (1, 2)]
    [(2, 2), (1, 2)] (by decide) (by decide)
    (by
      intro p
      simp only [List.count_cons, List.count_nil]
      by_cases q1 : ((1, 0) == p) = true <;> by_cases q2 : ((1, 2) == p) = true <;>
        by_cases q3 : ((2, 2) == p) = true <;> simp [q1, q2, q3])

/-! ## The solved predicate -/

theorem solved_column_spec (b : GameBoard W H) (x : Nat) (hx : x < W) (ys : List Nat)
    (hys : ∀ y ∈ ys, y < H) :
    (solved_column b x ys = Except.ok true ∨ solved_column b x ys = Except.ok false) ∧
    (solved_column b x ys = Except.ok true ↔ ∀ y ∈ ys, b.get x y = Except.ok true) := by
  induction ys with
  | nil => simp [solved_column]
  | cons y ys ih =>
    have hy := hys y (List.mem_cons_self y ys)
    obtain ⟨ih1, ih2⟩ := ih (fun z hz => hys z (List.mem_cons_of_mem y hz))
    simp only [solved_column, get_ok b x y hx hy, List.forall_mem_cons]
    cases b.values ⟨x, hx⟩ ⟨y, hy⟩
    · simp
    · simpa using ⟨ih1, ih2⟩

theorem solved_from_spec (b : GameBoard W H) (xs : List Nat) (hxs : ∀ x ∈ xs, x < W) :
    (solved_from b xs = Except.ok true ∨ solved_from b xs = Except.ok false) ∧
    (solved_from b xs = Except.ok true ↔
      ∀ x ∈ xs, ∀ y ∈ List.range H, b.get x y = Except.ok true) := by
  induction xs with
  | nil => simp [solved_from]
  | cons x xs ih =>
    have hx := hxs x (List.mem_cons_self x xs)
    obtain ⟨ih1, ih2⟩ := ih (fun z hz => hxs z (List.mem_cons_of_mem x hz))
    obtain ⟨c1, c2⟩ := solved_column_spec b x hx (List.range H)
      (fun y hy => List.mem_range.mp hy)
    simp only [solved_from, List.forall_mem_cons]
    rcases c1 with c1 | c1
    · rw [c1] at c2
      simp only [c1]
      exact ⟨ih1, by rw [ih2]; exact ⟨fun h => ⟨c2.mp rfl, h⟩, fun h => h.2⟩⟩
    · rw [c1] at c2
      simp only [c1]
      refine ⟨Or.inr trivial, ⟨fun h => (by cases h), fun h => ?_⟩⟩
      have := c2.mpr h.1
      cases this

theorem solved_total (b : GameBoard W H) :
    b.solved = Except.ok true ∨ b.solved = Except.ok false :=
  (solved_from_spec b (List.range W) (fun _ hx => List.mem_range.mp hx)).1

theorem solved_true_iff_values (b : GameBoard W H) :
    b.solved = Except.ok true ↔ ∀ a c, b.values a c = true := by
  unfold solved
  rw [(solved_from_spec b (List.range W) (fun x hx => List.mem_range.mp hx)).2]
  constructor
  · intro hh a c
    have := hh a.val (List.mem_range.mpr a.isLt) c.val (List.mem_range.mpr c.isLt)
    rw [get_ok b a.val c.val a.isLt c.isLt] at this
    exact Except.ok.inj this
  · intro hh x hx y hy
    rw [get_ok b x y (List.mem_range.mp hx) (List.mem_range.mp hy), hh]

theorem solved_of_values (b : GameBoard W H) (h : ∀ a c, b.values a c = true) :
    b.solved = Except.ok true :=
  (solved_true_iff_values b).mpr h

theorem solved_eq_of_values (b1 b2 : GameBoard W H) (h : b1.values = b2.values) :
    b1.solved = b2.solved := by
  have k1 := solved_true_iff_values b1
  have k2 := solved_true_iff_values b2
  rw [h] at k1
  rcases solved_total b1 with e1 | e1 <;> rcases solved_total b2 with e2 | e2
  · rw [e1, e2]
  · exact absurd (k2.mpr (k1.mp e1)) (by rw [e2]; intro hh; cases hh)
  · exact absurd (k1.mpr (k2.mp e2)) (by rw [e1]; intro hh; cases hh)
  · rw [e1, e2]

/-- C5: for every board state `solved()` returns normally, and it returns `true` if and only
if every cell `(x, y)` with `x < width` and `y < height` is lit, that is `get(x, y)` is `true`. -/
theorem solved_iff_all_lit (b : GameBoard W H) :
    (b.solved = Except.ok true ∨ b.solved = Except.ok false) ∧
    (b.solved = Except.ok true ↔
      ∀ x y, x < W → y < H → b.get x y = Except.ok true) := by
  obtain ⟨s1, s2⟩ := solved_from_spec b (List.range W) (fun x hx => List.mem_range.mp hx)
  refine ⟨s1, ?_⟩
  unfold solved
  rw [s2]
  constructor
  · intro h x y hx hy
    exact h x (List.mem_range.mpr hx) y (List.mem_range.mpr hy)
  · intro h x hx y hy
    exact h x y (List.mem_range.mp hx) (List.mem_range.mp hy)

/-! ## Construction -/

theorem for_each_cons {σ : Type} (i : Nat) (rest : List Nat) (body : Nat → Eff σ Unit) (s : σ) :
    for_each (i :: rest) body s = (body i >>= fun _ => for_each rest body) s := by
  rw [for_each]

theorem for_each_set_column (x : Nat) (hx : x < W) (ys : List Nat) (hys : ∀ y ∈ ys, y < H)
    (s : GameBoard W H) :
    for_each ys (fun y => set x y true) s = (Except.ok (),
      { strings := fun a c => if a.val = x ∧ c.val ∈ ys then "-*-" else s.strings a c
        values := fun a c => if a.val = x ∧ c.val ∈ ys then true else s.values a c
        move_count := s.move_count }) := by
  induction ys generalizing s with
  | nil =>
    cases s
    simp [for_each, pure_run]
  | cons y ys ih =>
    have hy := hys y (List.mem_cons_self y ys)
    rw [for_each_cons, bind_run, set_ok s x y true hx hy]
    simp only [ih (fun z hz => hys z (List.mem_cons_of_mem y hz)), if_true]
    refine congrArg (Prod.mk _) ?_
    simp only [GameBoard.mk.injEq, and_true, List.mem_cons]
    constructor
    · funext a c
      by_cases h1 : a.val = x <;> by_cases h2 : c.val = y <;> by_cases h3 : c.val ∈ ys <;>
        simp [h1, h2, h3]
    · funext a c
      by_cases h1 : a.val = x <;> by_cases h2 : c.val = y <;> by_cases h3 : c.val ∈ ys <;>
        simp [h1, h2, h3]

theorem for_each_set_all (xs : List Nat) (hxs : ∀ x ∈ xs, x < W) (s : GameBoard W H) :
    for_each xs (fun x => for_each (List.range H) fun y => set x y true) s = (Except.ok (),
      { strings := fun a c => if a.val ∈ xs then "-*-" else s.strings a c
        values := fun a c => if a.val ∈ xs then true else s.values a c
        move_count := s.move_count }) := by
  induction xs generalizing s with
  | nil =>
    cases s
    simp [for_each, pure_run]
  | cons x xs ih =>
    have hx := hxs x (List.mem_cons_self x xs)
    rw [for_each_cons, bind_run, for_each_set_column x hx (List.range H)
      (fun y hy => List.mem_range.mp hy) s]
    simp only [ih (fun z hz => hxs z (List.mem_cons_of_mem x hz))]
    refine congrArg (Prod.mk _) ?_
    simp only [GameBoard.mk.injEq, and_true, List.mem_cons, List.mem_range]
    constructor
    · funext a c
      by_cases h1 : a.val = x <;> by_cases h3 : a.val ∈ xs <;> simp [h1, h3, c.isLt]
    · funext a c
      by_cases h1 : a.val = x <;> by_cases h3 : a.val ∈ xs <;> simp [h1, h3, c.isLt]

theorem construct_run (W H : Nat) :
    construct W H = Except.ok (all_lit W H) := by
  unfold construct visit
  rw [for_each_set_all (List.range W) (fun x hx => List.mem_range.mp hx)]
  simp only [zero_init, all_lit, List.mem_range, Fin.is_lt, if_true]

/-- C6: for every pair of dimensions the constructor returns a board on which every cell is
lit, `solved()` is `true` and `move_count` is 0. -/
theorem construct_all_lit (W H : Nat) :
    ∃ b : GameBoard W H, construct W H = Except.ok b ∧ (∀ a c, b.values a c = true) ∧
      (∀ x y, x < W → y < H → b.get x y = Except.ok true) ∧
      b.solved = Except.ok true ∧ b.move_count = 0 := by
  refine ⟨_, construct_run W H, fun _ _ => rfl, ?_, solved_of_values _ (fun _ _ => rfl), rfl⟩
  intro x y hx hy
  rw [get_ok _ x y hx hy]
  rfl

/-! ## The scramble loop -/

theorem for_each_press_eq (f : Nat → Nat × Nat) (l : List Nat) (b : GameBoard W H) :
    for_each l (fun i => press (f i).1 (f i).2) b = press_seq (l.map f) b := by
  induction l generalizing b with
  | nil => rfl
  | cons i l ih =>
    rw [for_each_cons, List.map_cons, press_seq, bind_run, bind_run]
    rcases press (f i).1 (f i).2 b with ⟨r, s1⟩
    cases r with
    | error e => rfl
    | ok u => exact ih s1

/-- The coordinates drawn during the `k`-th execution of the body of the scramble loop. -/
theorem scramble_batch_eq (draws : Nat → Nat × Nat) (k : Nat) (b : GameBoard W H) :
    scramble_batch draws k b =
      press_seq ((List.range randomization_iterations).map
        fun i => draws (k * randomization_iterations + i)) b := by
  unfold scramble_batch
  exact for_each_press_eq (fun i => draws (k * randomization_iterations + i)) _ b

theorem scramble_batch_ok (draws : Nat → Nat × Nat)
    (hin : ∀ n, (draws n).1 < W ∧ (draws n).2 < H) (k : Nat) (b : GameBoard W H) :
    scramble_batch draws k b = (Except.ok (), (scramble_batch draws k b).2) := by
  have h := (press_seq_run ((List.range randomization_iterations).map
    fun i => draws (k * randomization_iterations + i)) b (by
      intro p hp
      obtain ⟨i, _, rfl⟩ := List.mem_map.mp hp
      exact hin _)).1
  rw [← scramble_batch_eq] at h
  exact Prod.ext h rfl

theorem scramble_batches_succ (draws : Nat → Nat × Nat)
    (hin : ∀ n, (draws n).1 < W ∧ (draws n).2 < H) (k n : Nat) (b : GameBoard W H) :
    scramble_batches draws k (n + 1) b =
      scramble_batches draws (k + 1) n (scramble_batch draws k b).2 := by
  rw [scramble_batches, bind_run, scramble_batch_ok draws hin k b]

theorem scramble_loop_again (draws : Nat → Nat × Nat)
    (hin : ∀ n, (draws n).1 < W ∧ (draws n).2 < H) (fuel k : Nat) (b : GameBoard W H)
    (h : (scramble_batch draws k b).2.solved = Except.ok true) :
    scramble_loop draws (fuel + 1) k b =
      scramble_loop draws fuel (k + 1) (scramble_batch draws k b).2 := by
  rw [scramble_loop, scramble_batch_ok draws hin k b]
  simp [h]

theorem scramble_loop_exit (draws : Nat → Nat × Nat)
    (hin : ∀ n, (draws n).1 < W ∧ (draws n).2 < H) (fuel k : Nat) (b : GameBoard W H)
    (h : (scramble_batch draws k b).2.solved = Except.ok false) :
    scramble_loop draws (fuel + 1) k b = some (Except.ok (), (scramble_batch draws k b).2) := by
  rw [scramble_loop, scramble_batch_ok draws hin k b]
  simp [h]

/-- Enough fuel: when some batch leaves the board unsolved, the loop returns, and it returns the
board left by a batch that left it unsolved. -/
theorem scramble_loop_returns (draws : Nat → Nat × Nat)
    (hin : ∀ n, (draws n).1 < W ∧ (draws n).2 < H) (n : Nat) :
    ∀ (fuel k : Nat) (b : GameBoard W H), n < fuel →
      (scramble_batches draws k (n + 1) b).2.solved = Except.ok false →
      ∃ m, m ≤ n ∧ (scramble_batches draws k (m + 1) b).2.solved = Except.ok false ∧
        scramble_loop draws fuel k b =
          some (Except.ok (), (scramble_batches draws k (m + 1) b).2) := by
  induction n with
  | zero =>
    intro fuel k b hf hn
    obtain ⟨fuel, rfl⟩ : ∃ m, fuel = m + 1 := ⟨fuel - 1, by omega⟩
    refine ⟨0, Nat.le_refl 0, hn, ?_⟩
    rw [scramble_batches_succ draws hin] at hn ⊢
    simp only [scramble_batches, pure_run] at hn ⊢
    exact scramble_loop_exit draws hin fuel k b hn
  | succ n ih =>
    intro fuel k b hf hn
    obtain ⟨fuel, rfl⟩ : ∃ m, fuel = m + 1 := ⟨fuel - 1, by omega⟩
    rcases solved_total (scramble_batch draws k b).2 with h0 | h0
    · rw [scramble_batches_succ draws hin] at hn
      obtain ⟨m, hm, hs, e⟩ := ih fuel (k + 1) _ (by omega) hn
      refine ⟨m + 1, by omega, ?_, ?_⟩
      · rwa [scramble_batches_succ draws hin]
      · rw [scramble_loop_again draws hin fuel k b h0, scramble_batches_succ draws hin]
        exact e
    · refine ⟨0, by omega, ?_, ?_⟩
      · rw [scramble_batches_succ draws hin]
        simp only [scramble_batches, pure_run]
        exact h0
      · rw [scramble_batches_succ draws hin]
        simp only [scramble_batches, pure_run]
        exact scramble_loop_exit draws hin fuel k b h0

/-- Whatever the loop returns was left unsolved by some batch, all earlier ones having left a
solved board. -/
theorem scramble_loop_some (draws : Nat → Nat × Nat)
    (hin : ∀ n, (draws n).1 < W ∧ (draws n).2 < H) :
    ∀ (fuel k : Nat) (b : GameBoard W H) (r : Except Error Unit × GameBoard W H),
      scramble_loop draws fuel k b = some r →
      ∃ n, n < fuel ∧ r = (Except.ok (), (scramble_batches draws k (n + 1) b).2) ∧
        (scramble_batches draws k (n + 1) b).2.solved = Except.ok false := by
  intro fuel
  induction fuel with
  | zero =>
    intro k b r h
    simp [scramble_loop] at h
  | succ fuel ih =>
    intro k b r h
    rcases solved_total (scramble_batch draws k b).2 with hs | hs
    · rw [scramble_loop_again draws hin fuel k b hs] at h
      obtain ⟨n, hn, e, hsol⟩ := ih (k + 1) _ r h
      refine ⟨n + 1, by omega, ?_, ?_⟩
      · rw [scramble_batches_succ draws hin]
        exact e
      · rw [scramble_batches_succ draws hin]
        exact hsol
    · rw [scramble_loop_exit draws hin fuel k b hs] at h
      refine ⟨0, by omega, ?_, ?_⟩
      · rw [scramble_batches_succ draws hin]
        simp only [scramble_batches, pure_run]
        exact (Option.some.inj h).symm
      · rw [scramble_batches_succ draws hin]
        simp only [scramble_batches, pure_run]
        exact hs

theorem reset_board_of_loop (draws : Nat → Nat × Nat) (fuel : Nat) (b b1 : GameBoard W H)
    (h : scramble_loop draws fuel 0 b = some (Except.ok (), b1)) :
    reset_board draws fuel b = some (Except.ok (), { b1 with move_count := 0 }) := by
  unfold reset_board
  rw [h]

theorem reset_board_none (draws : Nat → Nat × Nat) (fuel : Nat) (b : GameBoard W H)
    (h : scramble_loop draws fuel 0 b = none) : reset_board draws fuel b = none := by
  unfold reset_board
  rw [h]

theorem reset_board_some (draws : Nat → Nat × Nat) (fuel : Nat) (b : GameBoard W H)
    (r : Except Error Unit × GameBoard W H) (h : reset_board draws fuel b = some r) :
    ∃ r1, scramble_loop draws fuel 0 b = some r1 := by
  cases hl : scramble_loop draws fuel 0 b with
  | none => rw [reset_board_none draws fuel b hl] at h; cases h
  | some r1 => exact ⟨r1, rfl⟩

/-- C7 (amended): with in-range draws, on any board and for any dimensions, if some batch of the
scramble leaves the board unsolved then `reset_board` returns normally once it is given enough
iterations, and the board it leaves has `solved() == false` and `move_count == 0`; moreover every
board `reset_board` returns has these two properties. -/
theorem reset_board_postcondition (draws : Nat → Nat × Nat)
    (hin : ∀ n, (draws n).1 < W ∧ (draws n).2 < H) (b : GameBoard W H) (n : Nat)
    (hn : (scramble_batches draws 0 (n + 1) b).2.solved = Except.ok false) :
    (∀ fuel, n < fuel → ∃ b1, reset_board draws fuel b = some (Except.ok (), b1) ∧
      b1.solved = Except.ok false ∧ b1.move_count = 0) ∧
    (∀ fuel r, reset_board draws fuel b = some r →
      r.1 = Except.ok () ∧ r.2.solved = Except.ok false ∧ r.2.move_count = 0) := by
  constructor
  · intro fuel hf
    obtain ⟨m, _, hs, e⟩ := scramble_loop_returns draws hin n fuel 0 b hf hn
    refine ⟨_, reset_board_of_loop draws fuel b _ e, ?_, rfl⟩
    rw [← hs]
    exact solved_eq_of_values _ _ rfl
  · intro fuel r h
    obtain ⟨r1, h1⟩ := reset_board_some draws fuel b r h
    obtain ⟨m, _, e, hs⟩ := scramble_loop_some draws hin fuel 0 b r1 h1
    rw [e] at h1
    rw [reset_board_of_loop draws fuel b _ h1] at h
    have hr := (Option.some.inj h).symm
    rw [hr]
    refine ⟨rfl, ?_, rfl⟩
    rw [← hs]
    exact solved_eq_of_values _ _ rfl

/-- C8 (amended): the retry loop has no termination guard. With in-range draws `reset_board`
returns (for some number of iterations) if and only if some batch leaves the board unsolved. -/
theorem reset_board_returns_iff (draws : Nat → Nat × Nat)
    (hin : ∀ n, (draws n).1 < W ∧ (draws n).2 < H) (b : GameBoard W H) :
    (∃ fuel r, reset_board draws fuel b = some r) ↔
      ∃ n, (scramble_batches draws 0 (n + 1) b).2.solved = Except.ok false := by
  constructor
  · rintro ⟨fuel, r, h⟩
    obtain ⟨r1, h1⟩ := reset_board_some draws fuel b r h
    obtain ⟨m, _, _, hs⟩ := scramble_loop_some draws hin fuel 0 b r1 h1
    exact ⟨m, hs⟩
  · rintro ⟨n, hn⟩
    obtain ⟨m, _, _, e⟩ := scramble_loop_returns draws hin n (n + 1) 0 b (by omega) hn
    exact ⟨n + 1, _, reset_board_of_loop draws (n + 1) b _ e⟩

theorem scramble_batch_values (draws : Nat → Nat × Nat)
    (hin : ∀ n, (draws n).1 < W ∧ (draws n).2 < H) (k : Nat) (b : GameBoard W H)
    (a : Fin W) (c : Fin H) :
    (scramble_batch draws k b).2.values a c = xor (b.values a c)
      (decide (((List.range randomization_iterations).map
        fun i => draws (k * randomization_iterations + i)).countP
          (fun p => in_plus p.1 p.2 a.val c.val) % 2 = 1)) := by
  rw [scramble_batch_eq]
  exact (press_seq_run _ b (by
    intro p hp
    obtain ⟨i, _, rfl⟩ := List.mem_map.mp hp
    exact hin _)).2 a c

theorem unsolved_of_cell (b : GameBoard W H) (a : Fin W) (c : Fin H)
    (h : b.values a c = false) : b.solved = Except.ok false := by
  rcases solved_total b with e | e
  · have := (solved_true_iff_values b).mp e a c
    rw [h] at this
    cases this
  · exact e

/-- A cell left unlit by the first batch makes the first batch end unsolved. -/
theorem first_batch_unsolved (draws : Nat → Nat × Nat)
    (hin : ∀ n, (draws n).1 < W ∧ (draws n).2 < H) (b : GameBoard W H)
    (a : Fin W) (c : Fin H)
    (h : xor (b.values a c) (decide (((List.range randomization_iterations).map
        fun i => draws (0 * randomization_iterations + i)).countP
          (fun p => in_plus p.1 p.2 a.val c.val) % 2 = 1)) = false) :
    (scramble_batches draws 0 (0 + 1) b).2.solved = Except.ok false := by
  rw [scramble_batches_succ draws hin]
  simp only [scramble_batches, pure_run]
  apply unsolved_of_cell _ a c
  rw [scramble_batch_values draws hin 0 b a c]
  exact h

theorem scramble_batch_values_of_even (draws : Nat → Nat × Nat)
    (hin : ∀ n, (draws n).1 < W ∧ (draws n).2 < H) (k : Nat) (b : GameBoard W H)
    (hev : ∀ q, ((List.range randomization_iterations).map
      fun i => draws (k * randomization_iterations + i)).count q % 2 = 0) :
    (scramble_batch draws k b).2.values = b.values := by
  rw [scramble_batch_eq]
  have e := press_seq_values_congr b ((List.range randomization_iterations).map
      fun i => draws (k * randomization_iterations + i)) []
    (by
      intro p hp
      obtain ⟨i, _, rfl⟩ := List.mem_map.mp hp
      exact hin _)
    (fun p hp => absurd hp (List.not_mem_nil p))
    (fun q => by simpa using hev q)
  rw [e]
  rfl

/-- When every batch presses every coordinate an even number of times, a solved board stays
solved after each batch and the loop is still running after any number of iterations. -/
theorem scramble_loop_none_of_even (draws : Nat → Nat × Nat)
    (hin : ∀ n, (draws n).1 < W ∧ (draws n).2 < H)
    (hev : ∀ k q, ((List.range randomization_iterations).map
      fun i => draws (k * randomization_iterations + i)).count q % 2 = 0) :
    ∀ (fuel k : Nat) (b : GameBoard W H), (∀ a c, b.values a c = true) →
      scramble_loop draws fuel k b = none := by
  intro fuel
  induction fuel with
  | zero =>
    intro k b _
    rfl
  | succ fuel ih =>
    intro k b hb
    have hv := scramble_batch_values_of_even draws hin k b (hev k)
    have hb1 : ∀ a c, (scramble_batch draws k b).2.values a c = true := by
      intro a c
      rw [hv]
      exact hb a c
    rw [scramble_loop_again draws hin fuel k b (solved_of_values _ hb1)]
    exact ih (k + 1) _ hb1

theorem constant_draws_even (p : Nat × Nat) (k : Nat) (q : Nat × Nat) :
    ((List.range randomization_iterations).map
      fun i => (fun _ : Nat => p) (k * randomization_iterations + i)).count q % 2 = 0 := by
  simp only [List.map_const', List.length_range, List.count_replicate, randomization_iterations]
  split <;> rfl

/-- C7 (as stated, refuted): on the 3x3 board of the program, freshly constructed, with the
in-range coordinate `(0, 0)` drawn every time, each batch of 100 presses leaves the board solved,
so `reset_board` is still looping after any number of iterations and leaves no resulting
board. -/
theorem reset_board_loops_on_constant_draws :
    construct 3 3 = Except.ok (all_lit 3 3) ∧
    (∀ n : Nat, ((fun _ : Nat => ((0 : Nat), (0 : Nat))) n).1 < 3 ∧
      ((fun _ : Nat => ((0 : Nat), (0 : Nat))) n).2 < 3) ∧
    ∀ fuel, reset_board (fun _ => (0, 0)) fuel (all_lit 3 3) = none := by
  refine ⟨construct_run 3 3, fun _ => ⟨(by decide : 0 < 3), (by decide : 0 < 3)⟩, fun fuel => ?_⟩
  apply reset_board_none
  exact scramble_loop_none_of_even (fun _ => (0, 0))
    (fun _ => ⟨(by decide : 0 < 3), (by decide : 0 < 3)⟩)
    (constant_draws_even (0, 0)) fuel 0 (all_lit 3 3) (fun _ _ => rfl)

theorem reset_board_postcondition_witness :
    (∀ fuel, 0 < fuel → ∃ b1 : GameBoard 3 3,
      reset_board (fun i => (i % 3, i / 3 % 3)) fuel (all_lit 3 3) = some (Except.ok (), b1) ∧
      b1.solved = Except.ok false ∧ b1.move_count = 0) ∧
    (∀ fuel (r : Except Error Unit × GameBoard 3 3),
      reset_board (fun i => (i % 3, i / 3 % 3)) fuel (all_lit 3 3) = some r →
      r.1 = Except.ok () ∧ r.2.solved = Except.ok false ∧ r.2.move_count = 0) :=
  reset_board_postcondition (fun i => (i % 3, i / 3 % 3))
    (fun n => ⟨Nat.mod_lt _ (by decide), Nat.mod_lt _ (by decide)⟩) (all_lit 3 3) 0
    (first_batch_unsolved (fun i => (i % 3, i / 3 % 3))
      (fun n => ⟨Nat.mod_lt _ (by decide), Nat.mod_lt _ (by decide)⟩) (all_lit 3 3) 1 1
      (by decide))

/-- C8 (as stated, refuted): on the 2x2 board, all lit, with the in-range coordinate `(1, 1)`
drawn every time, `reset_board` does not return for any number of iterations of its loop. -/
theorem reset_board_unguarded_loop :
    (2 ≤ 2 ∧ 2 ≤ 2) ∧
    (∀ n : Nat, ((fun _ : Nat => ((1 : Nat), (1 : Nat))) n).1 < 2 ∧
      ((fun _ : Nat => ((1 : Nat), (1 : Nat))) n).2 < 2) ∧
    ¬ ∃ fuel r, reset_board (fun _ => (1, 1)) fuel (all_lit 2 2) = some r := by
  refine ⟨⟨by decide, by decide⟩, fun _ => ⟨(by decide : 1 < 2), (by decide : 1 < 2)⟩, ?_⟩
  rintro ⟨fuel, r, h⟩
  have e := reset_board_none (fun _ => (1, 1)) fuel (all_lit 2 2)
    (scramble_loop_none_of_even (fun _ => (1, 1))
      (fun _ => ⟨(by decide : 1 < 2), (by decide : 1 < 2)⟩)
      (constant_draws_even (1, 1)) fuel 0 (all_lit 2 2) (fun _ _ => rfl))
  rw [e] at h
  cases h

theorem reset_board_returns_iff_witness :
    (∃ fuel, ∃ r : Except Error Unit × GameBoard 3 3,
      reset_board (fun i => (i % 3, i / 3 % 3)) fuel (all_lit 3 3) = some r) ↔
      ∃ n, (scramble_batches (fun i => (i % 3, i / 3 % 3)) 0 (n + 1)
        (all_lit 3 3)).2.solved = Except.ok false :=
  reset_board_returns_iff (fun i => (i % 3, i / 3 % 3))
    (fun n => ⟨Nat.mod_lt _ (by decide), Nat.mod_lt _ (by decide)⟩) (all_lit 3 3)

/-! ## Error behaviour -/

/-- C9: `get(x, y)`, `toggle(x, y)` and `press(x, y)` raise the out-of-range error if and only
if `x >= width` or `y >= height`, and return normally if and only if the coordinate is in range;
an out-of-range coordinate is never clamped or skipped, and for an in-range coordinate every
toggle performed by `press`, those of the neighbours included, succeeds. -/
theorem out_of_range_iff (b : GameBoard W H) (x y : Nat) :
    (b.get x y = Except.error Error.out_of_range ↔ (W ≤ x ∨ H ≤ y)) ∧
    ((toggle x y b).1 = Except.error Error.out_of_range ↔ (W ≤ x ∨ H ≤ y)) ∧
    ((press x y b).1 = Except.error Error.out_of_range ↔ (W ≤ x ∨ H ≤ y)) ∧
    ((∃ v, b.get x y = Except.ok v) ↔ (x < W ∧ y < H)) ∧
    ((toggle x y b).1 = Except.ok () ↔ (x < W ∧ y < H)) ∧
    ((press x y b).1 = Except.ok () ↔ (x < W ∧ y < H)) := by
  by_cases h : x < W ∧ y < H
  · have hn : ¬ (W ≤ x ∨ H ≤ y) := by omega
    rw [get_ok b x y h.1 h.2, toggle_ok b x y h.1 h.2, press_run b x y h.1 h.2]
    refine ⟨⟨fun e => ?_, fun e => absurd e hn⟩, ⟨fun e => ?_, fun e => absurd e hn⟩,
      ⟨fun e => ?_, fun e => absurd e hn⟩, ⟨fun _ => h, fun _ => ⟨_, rfl⟩⟩,
      ⟨fun _ => h, fun _ => rfl⟩, ⟨fun _ => h, fun _ => rfl⟩⟩ <;> cases e
  · have hn : W ≤ x ∨ H ≤ y := by omega
    rw [get_err b x y h, toggle_err b x y h, press_err b x y h]
    refine ⟨⟨fun _ => hn, fun _ => rfl⟩, ⟨fun _ => hn, fun _ => rfl⟩,
      ⟨fun _ => hn, fun _ => rfl⟩, ⟨fun e => ?_, fun e => absurd e h⟩,
      ⟨fun e => ?_, fun e => absurd e h⟩, ⟨fun e => ?_, fun e => absurd e h⟩⟩
    · obtain ⟨v, hv⟩ := e
      cases hv
    · cases e
    · cases e

theorem scramble_batches_values_of_even (draws : Nat → Nat × Nat)
    (hin : ∀ n, (draws n).1 < W ∧ (draws n).2 < H)
    (hev : ∀ k q, ((List.range randomization_iterations).map
      fun i => draws (k * randomization_iterations + i)).count q % 2 = 0) :
    ∀ (n k : Nat) (b : GameBoard W H), (scramble_batches draws k n b).2.values = b.values := by
  intro n
  induction n with
  | zero =>
    intro k b
    rfl
  | succ n ih =>
    intro k b
    rw [scramble_batches_succ draws hin, ih (k + 1),
      scramble_batch_values_of_even draws hin k b (hev k)]

/-- C10 (as stated, refuted): the 1x1 board is constructed without error although no scramble
outcome on it is unsolved: for every stream of in-range draws the board is solved after any
number of batches, and `reset_board` is still looping after any number of iterations. -/
theorem construct_accepts_degenerate_board :
    construct 1 1 = Except.ok (all_lit 1 1) ∧
    ∀ draws : Nat → Nat × Nat, (∀ n, (draws n).1 < 1 ∧ (draws n).2 < 1) →
      (∀ n, (scramble_batches draws 0 n (all_lit 1 1)).2.solved = Except.ok true) ∧
      (∀ fuel, reset_board draws fuel (all_lit 1 1) = none) := by
  refine ⟨construct_run 1 1, fun draws hin => ?_⟩
  have hd : draws = fun _ => (0, 0) := by
    funext n
    have := hin n
    exact Prod.ext (by simp only []; omega) (by simp only []; omega)
  have hev : ∀ k q, ((List.range randomization_iterations).map
      fun i => draws (k * randomization_iterations + i)).count q % 2 = 0 := by
    rw [hd]
    exact constant_draws_even (0, 0)
  constructor
  · intro n
    apply solved_of_values
    intro a c
    rw [scramble_batches_values_of_even draws hin hev n 0 (all_lit 1 1)]
    rfl
  · intro fuel
    apply reset_board_none
    exact scramble_loop_none_of_even draws hin hev fuel 0 (all_lit 1 1) (fun _ _ => rfl)

/-- C10 (amended): construction never fails. For every pair of dimensions the constructor raises
no error and returns the all-lit board: every cell is lit (`get(x, y)` is `true` and
`get_string(x, y)` is `"-*-"` for every in-range coordinate), `solved()` is `true` and
`move_count` is 0. Dimensions are not validated: this includes the 1x1 board, on which no
scramble outcome is unsolved and `reset_board` is still looping after any number of iterations
for every stream of in-range draws. -/
theorem construct_never_rejects (W H : Nat) :
    (∃ b : GameBoard W H, construct W H = Except.ok b ∧
      (∀ a c, b.values a c = true) ∧
      (∀ x y, x < W → y < H →
        b.get x y = Except.ok true ∧ b.get_string x y = Except.ok "-*-") ∧
      b.solved = Except.ok true ∧ b.move_count = 0 ∧
      (W = 1 ∧ H = 1 → ∀ draws : Nat → Nat × Nat,
        (∀ n, (draws n).1 < W ∧ (draws n).2 < H) →
        ∀ fuel, reset_board draws fuel b = none)) ∧
    ∀ e, construct W H ≠ Except.error e := by
  rw [construct_run W H]
  refine ⟨⟨all_lit W H, rfl, fun _ _ => rfl, ?_, solved_of_values _ (fun _ _ => rfl), rfl, ?_⟩,
    fun e h => by cases h⟩
  · intro x y hx hy
    constructor
    · rw [get_ok _ x y hx hy]
      rfl
    · simp [get_string, at2, hx, hy, all_lit]
  · intro hdim draws hin fuel
    have hd : draws = fun _ => (0, 0) := by
      funext n
      have := hin n
      exact Prod.ext (by simp only []; omega) (by simp only []; omega)
    have hev : ∀ k q, ((List.range randomization_iterations).map
        fun i => draws (k * randomization_iterations + i)).count q % 2 = 0 := by
      rw [hd]
      exact constant_draws_even (0, 0)
    apply reset_board_none
    exact scramble_loop_none_of_even draws hin hev fuel 0 (all_lit W H) (fun _ _ => rfl)

/-! ## The move counter -/

/-- C11 (as stated, refuted): on the solved 3x3 board whose counter holds the largest
`std::size_t`, pressing the in-range cell `(0, 0)` returns normally and leaves `move_count == 0`,
which is not the former value plus 1. -/
theorem press_counter_wraps :
    (0 < 3 ∧ 0 < 3) ∧
    (press 0 0 ({ all_lit 3 3 with move_count := 18446744073709551615 })).1 = Except.ok () ∧
    (press 0 0 ({ all_lit 3 3 with move_count := 18446744073709551615 })).2.move_count = 0 ∧
    ¬ (press 0 0 ({ all_lit 3 3 with move_count := 18446744073709551615 })).2.move_count =
      ({ all_lit 3 3 with move_count := 18446744073709551615 } : GameBoard 3 3).move_count
        + 1 := by
  refine ⟨⟨by decide, by decide⟩, ?_⟩
  rw [press_run _ 0 0 (by decide) (by decide)]
  refine ⟨rfl, ?_, ?_⟩ <;> decide

/-- C11 (amended): for every board state, solved or not, and every in-range coordinate,
`press(x, y)` returns normally, sets `move_count` to `(move_count + 1) mod 2^64`, which is the
former value plus 1 whenever that fits in a `std::size_t`, and negates the cells of the plus
shape, so that a solved board is left unsolved; `toggle(x, y)` leaves `move_count` unchanged. -/
theorem press_counts_and_toggles (b : GameBoard W H) (x y : Nat) (hx : x < W) (hy : y < H) :
    (press x y b).1 = Except.ok () ∧
    (press x y b).2.move_count = (b.move_count + 1) % SIZE_MOD ∧
    (b.move_count + 1 < SIZE_MOD → (press x y b).2.move_count = b.move_count + 1) ∧
    (∀ (a : Fin W) (c : Fin H),
      (press x y b).2.values a c = xor (b.values a c) (in_plus x y a.val c.val)) ∧
    (b.solved = Except.ok true → (press x y b).2.solved = Except.ok false) ∧
    (toggle x y b).2.move_count = b.move_count := by
  rw [press_run b x y hx hy, toggle_ok b x y hx hy]
  refine ⟨rfl, rfl, ?_, fun _ _ => rfl, ?_, rfl⟩
  · intro h
    exact Nat.mod_eq_of_lt h
  · intro hs
    apply unsolved_of_cell _ ⟨x, hx⟩ ⟨y, hy⟩
    have hv := (solved_true_iff_values b).mp hs ⟨x, hx⟩ ⟨y, hy⟩
    simp [flip_where, in_plus, hv]

theorem press_counts_and_toggles_witness :
    (press 1 1 (all_lit 3 3)).1 = Except.ok () ∧
    (press 1 1 (all_lit 3 3)).2.move_count = ((all_lit 3 3).move_count + 1) % SIZE_MOD ∧
    ((all_lit 3 3).move_count + 1 < SIZE_MOD →
      (press 1 1 (all_lit 3 3)).2.move_count = (all_lit 3 3).move_count + 1) ∧
    (∀ (a : Fin 3) (c : Fin 3),
      (press 1 1 (all_lit 3 3)).2.values a c =
        xor ((all_lit 3 3).values a c) (in_plus 1 1 a.val c.val)) ∧
    ((all_lit 3 3).solved = Except.ok true →
      (press 1 1 (all_lit 3 3)).2.solved = Except.ok false) ∧
    (toggle 1 1 (all_lit 3 3)).2.move_count = (all_lit 3 3).move_count :=
  press_counts_and_toggles (all_lit 3 3) 1 1 (by decide) (by decide)

/-- C12: `solved()` depends only on the cell contents. Two boards of the same size with
identical cell values report the same `solved()` result whatever their counters (and display
strings) are; in particular changing `move_count` alone never changes `solved()`. -/
theorem solved_independent_of_move_count (b1 b2 : GameBoard W H)
    (h : b1.values = b2.values) :
    b1.solved = b2.solved ∧ ∀ n : Nat, ({ b1 with move_count := n } : GameBoard W H).solved =
      b2.solved := by
  have e := solved_eq_of_values b1 b2 h
  refine ⟨e, fun n => ?_⟩
  rw [← e]
  exact solved_eq_of_values _ _ rfl

theorem solved_independent_of_move_count_witness :
    (press 0 0 (all_lit 3 3)).2.solved =
        ({ (press 0 0 (all_lit 3 3)).2 with move_count := 41 } : GameBoard 3 3).solved ∧
      ∀ n : Nat, ({ (press 0 0 (all_lit 3 3)).2 with move_count := n } : GameBoard 3 3).solved =
        ({ (press 0 0 (all_lit 3 3)).2 with move_count := 41 } : GameBoard 3 3).solved :=
  solved_independent_of_move_count (press 0 0 (all_lit 3 3)).2
    { (press 0 0 (all_lit 3 3)).2 with move_count := 41 } rfl

/-! ## Concrete scenarios -/

/-- C13: on the freshly constructed 3x3 board `press(1, 1)` returns normally, the unlit cells
are exactly the five cells `(1,1)`, `(0,1)`, `(2,1)`, `(1,0)`, `(1,2)`, the four corners
`(0,0)`, `(2,0)`, `(0,2)`, `(2,2)` are still lit, `solved()` is `false` and `move_count` is 1. -/
theorem press_centre_scenario :
    ∃ b : GameBoard 3 3, construct 3 3 = Except.ok b ∧
      (press 1 1 b).1 = Except.ok () ∧
      (∀ (a : Fin 3) (c : Fin 3), (press 1 1 b).2.values a c = false ↔
        ((a.val = 1 ∧ c.val = 1) ∨ (a.val = 0 ∧ c.val = 1) ∨ (a.val = 2 ∧ c.val = 1) ∨
          (a.val = 1 ∧ c.val = 0) ∨ (a.val = 1 ∧ c.val = 2))) ∧
      ((press 1 1 b).2.get 1 1 = Except.ok false ∧ (press 1 1 b).2.get 0 1 = Except.ok false ∧
        (press 1 1 b).2.get 2 1 = Except.ok false ∧ (press 1 1 b).2.get 1 0 = Except.ok false ∧
        (press 1 1 b).2.get 1 2 = Except.ok false) ∧
      ((press 1 1 b).2.get 0 0 = Except.ok true ∧ (press 1 1 b).2.get 2 0 = Except.ok true ∧
        (press 1 1 b).2.get 0 2 = Except.ok true ∧ (press 1 1 b).2.get 2 2 = Except.ok true) ∧
      (press 1 1 b).2.solved = Except.ok false ∧
      (press 1 1 b).2.move_count = 1 := by
  refine ⟨all_lit 3 3, construct_run 3 3, ?_⟩
  rw [press_run (all_lit 3 3) 1 1 (by decide) (by decide)]
  refine ⟨rfl, by decide, ⟨rfl, rfl, rfl, rfl, rfl⟩, ⟨rfl, rfl, rfl, rfl⟩, ?_, by decide⟩
  exact unsolved_of_cell _ 1 1 (by decide)

/-- C14: on the freshly constructed board of any dimensions `width ≥ 2`, `height ≥ 2` (the 3x3
board included) `press(0, 0)` returns normally, the cells `(0,0)`, `(1,0)`, `(0,1)` are unlit
and every other cell is still lit: exactly three cells are flipped and nothing wraps around. -/
theorem press_corner_scenario (W H : Nat) (hW : 2 ≤ W) (hH : 2 ≤ H) :
    ∃ b : GameBoard W H, construct W H = Except.ok b ∧
      (press 0 0 b).1 = Except.ok () ∧
      ((press 0 0 b).2.get 0 0 = Except.ok false ∧ (press 0 0 b).2.get 1 0 = Except.ok false ∧
        (press 0 0 b).2.get 0 1 = Except.ok false) ∧
      (∀ (a : Fin W) (c : Fin H), (press 0 0 b).2.values a c = false ↔
        ((a.val = 0 ∧ c.val = 0) ∨ (a.val = 1 ∧ c.val = 0) ∨ (a.val = 0 ∧ c.val = 1))) ∧
      (∀ (a : Fin W) (c : Fin H),
        ¬ ((a.val = 0 ∧ c.val = 0) ∨ (a.val = 1 ∧ c.val = 0) ∨ (a.val = 0 ∧ c.val = 1)) →
        (press 0 0 b).2.values a c = true) := by
  refine ⟨all_lit W H, construct_run W H, ?_⟩
  rw [press_run (all_lit W H) 0 0 (by omega) (by omega)]
  have key : ∀ (a : Fin W) (c : Fin H),
      (flip_where { all_lit W H with move_count := ((all_lit W H).move_count + 1) % SIZE_MOD }
        (in_plus 0 0)).values a c = false ↔
      ((a.val = 0 ∧ c.val = 0) ∨ (a.val = 1 ∧ c.val = 0) ∨ (a.val = 0 ∧ c.val = 1)) := by
    intro a c
    simp only [flip_where, all_lit, in_plus, Bool.true_xor, Bool.not_eq_false',
      decide_eq_true_eq]
    omega
  refine ⟨rfl, ⟨?_, ?_, ?_⟩, key, ?_⟩
  · rw [get_ok _ 0 0 (by omega) (by omega)]
    exact congrArg Except.ok ((key _ _).mpr (by simp))
  · rw [get_ok _ 1 0 (by omega) (by omega)]
    exact congrArg Except.ok ((key _ _).mpr (by simp))
  · rw [get_ok _ 0 1 (by omega) (by omega)]
    exact congrArg Except.ok ((key _ _).mpr (by simp))
  · intro a c h
    have := (key a c).not.mpr h
    simpa using this

theorem press_corner_scenario_witness :
    ∃ b : GameBoard 3 3, construct 3 3 = Except.ok b ∧
      (press 0 0 b).1 = Except.ok () ∧
      ((press 0 0 b).2.get 0 0 = Except.ok false ∧ (press 0 0 b).2.get 1 0 = Except.ok false ∧
        (press 0 0 b).2.get 0 1 = Except.ok false) ∧
      (∀ (a : Fin 3) (c : Fin 3), (press 0 0 b).2.values a c = false ↔
        ((a.val = 0 ∧ c.val = 0) ∨ (a.val = 1 ∧ c.val = 0) ∨ (a.val = 0 ∧ c.val = 1))) ∧
      (∀ (a : Fin 3) (c : Fin 3),
        ¬ ((a.val = 0 ∧ c.val = 0) ∨ (a.val = 1 ∧ c.val = 0) ∨ (a.val = 0 ∧ c.val = 1)) →
        (press 0 0 b).2.values a c = true) :=
  press_corner_scenario 3 3 (by decide) (by decide)

/-! ## Replaying a sequence -/

theorem press_seq_append (l1 l2 : List (Nat × Nat)) (b : GameBoard W H) :
    press_seq (l1 ++ l2) b = (press_seq l1 >>= fun _ => press_seq l2) b := by
  induction l1 generalizing b with
  | nil => rfl
  | cons p l1 ih =>
    rw [List.cons_append, press_seq, press_seq, bind_run, bind_run, bind_run]
    rcases press p.1 p.2 b with ⟨r, s1⟩
    cases r with
    | error e => rfl
    | ok u =>
      simp only []
      rw [ih s1, bind_run]

theorem press_seq_twice_values (s : List (Nat × Nat)) (hs : ∀ p ∈ s, p.1 < W ∧ p.2 < H)
    (b : GameBoard W H) :
    ((press_seq s >>= fun _ => press_seq s) b).1 = Except.ok () ∧
    ((press_seq s >>= fun _ => press_seq s) b).2.values = b.values := by
  rw [← press_seq_append]
  have hss : ∀ p ∈ s ++ s, p.1 < W ∧ p.2 < H := by
    intro p hp
    rcases List.mem_append.mp hp with h | h <;> exact hs p h
  refine ⟨(press_seq_run (s ++ s) b hss).1, ?_⟩
  have e := press_seq_values_congr b (s ++ s) [] hss
    (fun p hp => absurd hp (List.not_mem_nil p))
    (fun p => by
      rw [List.count_append, List.count_nil]
      omega)
  rw [e]
  rfl

/-- C15: for all dimensions and every finite sequence `s` of in-range coordinates, pressing the
coordinates of `s` in order on the freshly constructed (all-lit) board and then pressing the
same sequence a second time in the same order returns normally and leaves every cell lit, so
`solved()` is `true`; in particular this holds when `s` is the sequence of 100 coordinates
used by a scramble batch. -/
theorem replay_resolves (W H : Nat) (s : List (Nat × Nat))
    (hs : ∀ p ∈ s, p.1 < W ∧ p.2 < H) :
    ∃ b : GameBoard W H, construct W H = Except.ok b ∧
      ((press_seq s >>= fun _ => press_seq s) b).1 = Except.ok () ∧
      (∀ a c, ((press_seq s >>= fun _ => press_seq s) b).2.values a c = true) ∧
      ((press_seq s >>= fun _ => press_seq s) b).2.solved = Except.ok true ∧
      (∀ (draws : Nat → Nat × Nat) (k : Nat), (∀ n, (draws n).1 < W ∧ (draws n).2 < H) →
        ((scramble_batch draws k >>= fun _ => scramble_batch draws k) b).1 = Except.ok () ∧
        ((scramble_batch draws k >>= fun _ => scramble_batch draws k) b).2.solved =
          Except.ok true) := by
  obtain ⟨h1, h2⟩ := press_seq_twice_values s hs (all_lit W H)
  have hv : ∀ a c, ((press_seq s >>= fun _ => press_seq s) (all_lit W H)).2.values a c
      = true := by
    intro a c
    rw [h2]
    rfl
  refine ⟨all_lit W H, construct_run W H, h1, hv, solved_of_values _ hv, ?_⟩
  intro draws k hd
  have hb : (scramble_batch draws k : Eff (GameBoard W H) Unit) =
      press_seq ((List.range randomization_iterations).map
        fun i => draws (k * randomization_iterations + i)) := by
    funext b
    rw [scramble_batch_eq]
  rw [hb]
  obtain ⟨g1, g2⟩ := press_seq_twice_values ((List.range randomization_iterations).map
      fun i => draws (k * randomization_iterations + i))
    (by
      intro p hp
      obtain ⟨i, _, rfl⟩ := List.mem_map.mp hp
      exact hd _) (all_lit W H)
  refine ⟨g1, solved_of_values _ (fun a c => ?_)⟩
  rw [g2]
  rfl

theorem replay_resolves_witness :
    ∃ b : GameBoard 3 3, construct 3 3 = Except.ok b ∧
      ((press_seq [(1, 0), (2, 2), (1, 0), (0, 1)] >>= fun _ =>
        press_seq [(1, 0), (2, 2), (1, 0), (0, 1)]) b).1 = Except.ok () ∧
      (∀ a c, ((press_seq [(1, 0), (2, 2), (1, 0), (0, 1)] >>= fun _ =>
        press_seq [(1, 0), (2, 2), (1, 0), (0, 1)]) b).2.values a c = true) ∧
      ((press_seq [(1, 0), (2, 2), (1, 0), (0, 1)] >>= fun _ =>
        press_seq [(1, 0), (2, 2), (1, 0), (0, 1)]) b).2.solved = Except.ok true ∧
      (∀ (draws : Nat → Nat × Nat) (k : Nat), (∀ n, (draws n).1 < 3 ∧ (draws n).2 < 3) →
        ((scramble_batch draws k >>= fun _ => scramble_batch draws k) b).1 = Except.ok () ∧
        ((scramble_batch draws k >>= fun _ => scramble_batch draws k) b).2.solved =
          Except.ok true) :=
  replay_resolves 3 3 [(1, 0), (2, 2), (1, 0), (0, 1)] (by decide)

/-! ## Degenerate boards -/

theorem in_plus_of_degenerate (W H : Nat)
    (hdeg : (W = 1 ∧ H = 1) ∨ (W = 1 ∧ H = 2) ∨ (W = 2 ∧ H = 1))
    (x y a c : Nat) (hx : x < W) (hy : y < H) (ha : a < W) (hc : c < H) :
    in_plus x y a c = true := by
  simp only [in_plus, decide_eq_true_eq]
  omega

theorem press_seq_values_of_cover (l : List (Nat × Nat)) (b : GameBoard W H)
    (hin : ∀ p ∈ l, p.1 < W ∧ p.2 < H)
    (hcov : ∀ x y a c, x < W → y < H → a < W → c < H → in_plus x y a c = true)
    (a : Fin W) (c : Fin H) :
    (press_seq l b).2.values a c = xor (b.values a c) (decide (l.length % 2 = 1)) := by
  rw [(press_seq_run l b hin).2 a c]
  have e : l.countP (fun p => in_plus p.1 p.2 a.val c.val) = l.length := by
    rw [List.countP_eq_length]
    intro p hp
    exact hcov p.1 p.2 a.val c.val (hin p hp).1 (hin p hp).2 a.isLt c.isLt
  rw [e]

theorem scramble_loop_none_of_preserved (draws : Nat → Nat × Nat)
    (hin : ∀ n, (draws n).1 < W ∧ (draws n).2 < H)
    (hpres : ∀ (k : Nat) (b : GameBoard W H), (∀ a c, b.values a c = true) →
      ∀ a c, (scramble_batch draws k b).2.values a c = true) :
    ∀ (fuel k : Nat) (b : GameBoard W H), (∀ a c, b.values a c = true) →
      scramble_loop draws fuel k b = none := by
  intro fuel
  induction fuel with
  | zero =>
    intro k b _
    rfl
  | succ fuel ih =>
    intro k b hb
    have hb1 := hpres k b hb
    rw [scramble_loop_again draws hin fuel k b (solved_of_values _ hb1)]
    exact ih (k + 1) _ hb1

/-- C16: on the 1x1, 1x2 and 2x1 boards the set of unsolved scramble outcomes is empty. Every
sequence of exactly 100 in-range presses applied to the all-lit board (the board the constructor
returns) returns normally and leaves every cell lit, so `solved()` is `true` after it; hence
for every stream of in-range draws the do-while loop of `reset_board` is still running after
any number of iterations. -/
theorem degenerate_boards_never_unsolved (W H : Nat)
    (hdeg : (W = 1 ∧ H = 1) ∨ (W = 1 ∧ H = 2) ∨ (W = 2 ∧ H = 1)) :
    construct W H = Except.ok (all_lit W H) ∧
    (∀ l : List (Nat × Nat), l.length = 100 → (∀ p ∈ l, p.1 < W ∧ p.2 < H) →
      (press_seq l (all_lit W H)).1 = Except.ok () ∧
      (∀ a c, (press_seq l (all_lit W H)).2.values a c = true) ∧
      (press_seq l (all_lit W H)).2.solved = Except.ok true) ∧
    (∀ draws : Nat → Nat × Nat, (∀ n, (draws n).1 < W ∧ (draws n).2 < H) →
      (∀ k, (scramble_batch draws k (all_lit W H)).2.solved = Except.ok true) ∧
      ∀ fuel, reset_board draws fuel (all_lit W H) = none) := by
  have hcov := in_plus_of_degenerate W H hdeg
  have hseq : ∀ (l : List (Nat × Nat)) (b : GameBoard W H), l.length = 100 →
      (∀ p ∈ l, p.1 < W ∧ p.2 < H) → (∀ a c, b.values a c = true) →
      ∀ a c, (press_seq l b).2.values a c = true := by
    intro l b hl hin hb a c
    rw [press_seq_values_of_cover l b hin hcov a c, hl, hb a c]
    rfl
  have hbatch : ∀ (draws : Nat → Nat × Nat), (∀ n, (draws n).1 < W ∧ (draws n).2 < H) →
      ∀ (k : Nat) (b : GameBoard W H), (∀ a c, b.values a c = true) →
      ∀ a c, (scramble_batch draws k b).2.values a c = true := by
    intro draws hin k b hb a c
    rw [scramble_batch_eq]
    apply hseq _ b _ _ hb
    · simp [randomization_iterations]
    · intro p hp
      obtain ⟨i, _, rfl⟩ := List.mem_map.mp hp
      exact hin _
  refine ⟨construct_run W H, ?_, ?_⟩
  · intro l hl hin
    have hv := hseq l (all_lit W H) hl hin (fun _ _ => rfl)
    exact ⟨(press_seq_run l _ hin).1, hv, solved_of_values _ hv⟩
  · intro draws hin
    refine ⟨fun k => solved_of_values _ (hbatch draws hin k _ (fun _ _ => rfl)), fun fuel => ?_⟩
    apply reset_board_none
    exact scramble_loop_none_of_preserved draws hin (hbatch draws hin) fuel 0 (all_lit W H)
      (fun _ _ => rfl)

theorem degenerate_boards_never_unsolved_witness :
    construct 1 2 = Except.ok (all_lit 1 2) ∧
    (∀ l : List (Nat × Nat), l.length = 100 → (∀ p ∈ l, p.1 < 1 ∧ p.2 < 2) →
      (press_seq l (all_lit 1 2)).1 = Except.ok () ∧
      (∀ a c, (press_seq l (all_lit 1 2)).2.values a c = true) ∧
      (press_seq l (all_lit 1 2)).2.solved = Except.ok true) ∧
    (∀ draws : Nat → Nat × Nat, (∀ n, (draws n).1 < 1 ∧ (draws n).2 < 2) →
      (∀ k, (scramble_batch draws k (all_lit 1 2)).2.solved = Except.ok true) ∧
      ∀ fuel, reset_board draws fuel (all_lit 1 2) = none) :=
  degenerate_boards_never_unsolved 1 2 (by decide)

/-! ## The cell buttons -/

theorem button_callback_solved (b : GameBoard W H) (x y : Nat)
    (h : b.solved = Except.ok true) : button_callback x y b = (Except.ok (), b) := by
  simp [button_callback, h]

theorem button_callback_unsolved (b : GameBoard W H) (x y : Nat)
    (h : b.solved = Except.ok false) : button_callback x y b = press x y b := by
  simp [button_callback, h]

theorem button_seq_solved (l : List (Nat × Nat)) (b : GameBoard W H)
    (h : b.solved = Except.ok true) : button_seq l b = (Except.ok (), b) := by
  induction l with
  | nil => rfl
  | cons p l ih =>
    rw [button_seq, bind_run, button_callback_solved b p.1 p.2 h]
    exact ih

/-- C17: the callback of the button of cell `(x, y)` calls `press(x, y)` only when the board is
not solved. Invoked on a solved board it returns normally and leaves the board (every cell,
every display string and `move_count`) unchanged; invoked on an unsolved board it does exactly
what `press(x, y)` does; hence on a solved board no sequence of cell-button callbacks changes
the grid or the counter. -/
theorem button_callback_guard (b : GameBoard W H) (x y : Nat) :
    (b.solved = Except.ok true → button_callback x y b = (Except.ok (), b)) ∧
    (b.solved = Except.ok false → button_callback x y b = press x y b) ∧
    (b.solved = Except.ok true → ∀ l : List (Nat × Nat),
      (button_seq l b).1 = Except.ok () ∧ (button_seq l b).2.values = b.values ∧
      (button_seq l b).2.move_count = b.move_count ∧ button_seq l b = (Except.ok (), b)) := by
  refine ⟨button_callback_solved b x y, button_callback_unsolved b x y, fun h l => ?_⟩
  rw [button_seq_solved l b h]
  exact ⟨rfl, rfl, rfl, rfl⟩

/-! ## Display strings -/

theorem strings_mirror_flip_where (b : GameBoard W H) (p : Nat → Nat → Bool)
    (h : strings_mirror b) : strings_mirror (flip_where b p) := by
  intro a c
  simp only [flip_where]
  by_cases hp : p a.val c.val = true
  · simp only [hp, if_true, Bool.xor_true]
    cases b.values a c <;> rfl
  · simp only [Bool.not_eq_true] at hp
    simp only [hp, Bool.xor_false]
    exact h a c

theorem strings_mirror_set (b : GameBoard W H) (x y : Nat) (v : Bool)
    (h : strings_mirror b) : strings_mirror (set x y v b).2 := by
  by_cases hr : x < W ∧ y < H
  · rw [set_ok b x y v hr.1 hr.2]
    intro a c
    by_cases hp : a.val = x ∧ c.val = y
    · simp only [hp, and_self, if_true]
    · simp only [hp, if_false]
      exact h a c
  · rw [set_err b x y v hr]
    exact h

theorem strings_mirror_toggle (b : GameBoard W H) (x y : Nat)
    (h : strings_mirror b) : strings_mirror (toggle x y b).2 := by
  by_cases hr : x < W ∧ y < H
  · rw [toggle_ok b x y hr.1 hr.2]
    exact strings_mirror_flip_where b (fun a c => decide (a = x ∧ c = y)) h
  · rw [toggle_err b x y hr]
    exact h

theorem strings_mirror_press (b : GameBoard W H) (x y : Nat)
    (h : strings_mirror b) : strings_mirror (press x y b).2 := by
  by_cases hr : x < W ∧ y < H
  · rw [press_run b x y hr.1 hr.2]
    exact strings_mirror_flip_where _ _ h
  · rw [press_err b x y hr]
    exact h

theorem run_call_ok (b : GameBoard W H) (k : Call)
    (hk : (call_target k).1 < W ∧ (call_target k).2 < H) :
    (run_call k b).1 = Except.ok () := by
  cases k with
  | set x y v => exact congrArg Prod.fst (set_ok b x y v hk.1 hk.2)
  | toggle x y => exact congrArg Prod.fst (toggle_ok b x y hk.1 hk.2)
  | press x y => exact congrArg Prod.fst (press_run b x y hk.1 hk.2)

theorem strings_mirror_run_call (b : GameBoard W H) (k : Call)
    (h : strings_mirror b) : strings_mirror (run_call k b).2 := by
  cases k with
  | set x y v => exact strings_mirror_set b x y v h
  | toggle x y => exact strings_mirror_toggle b x y h
  | press x y => exact strings_mirror_press b x y h

theorem run_calls_mirror (calls : List Call) (b : GameBoard W H)
    (hin : ∀ k ∈ calls, (call_target k).1 < W ∧ (call_target k).2 < H)
    (h : strings_mirror b) :
    (run_calls calls b).1 = Except.ok () ∧ strings_mirror (run_calls calls b).2 := by
  induction calls generalizing b with
  | nil => exact ⟨rfl, h⟩
  | cons k calls ih =>
    have hk := run_call_ok b k (hin k (List.mem_cons_self k calls))
    have hm := strings_mirror_run_call b k h
    rw [run_calls, bind_run]
    rcases hr : run_call k b with ⟨r, s1⟩
    rw [hr] at hk hm
    simp only [] at hk hm
    subst hk
    exact ih s1 (fun q hq => hin q (List.mem_cons_of_mem k hq)) hm

theorem for_each_fixed {σ : Type} (l : List Nat) (body : Nat → Eff σ Unit) (s : σ)
    (h : ∀ i ∈ l, body i s = (Except.ok (), s)) : for_each l body s = (Except.ok (), s) := by
  induction l with
  | nil => rfl
  | cons i l ih =>
    rw [for_each_cons, bind_run, h i (List.mem_cons_self i l)]
    exact ih (fun j hj => h j (List.mem_cons_of_mem i hj))

theorem update_strings_fixed (b : GameBoard W H) (h : strings_mirror b) :
    update_strings b = (Except.ok (), b) := by
  unfold update_strings
  apply for_each_fixed
  intro x hx
  apply for_each_fixed
  intro y hy
  have hx1 := List.mem_range.mp hx
  have hy1 := List.mem_range.mp hy
  simp only [get_ok b x y hx1 hy1, set_ok b x y _ hx1 hy1]
  refine congrArg (Prod.mk _) ?_
  cases b with
  | mk strings values move_count =>
    simp only [GameBoard.mk.injEq, and_true]
    constructor
    · funext a c
      by_cases hp : a.val = x ∧ c.val = y
      · have ha : a = ⟨x, hx1⟩ := Fin.ext hp.1
        have hc : c = ⟨y, hy1⟩ := Fin.ext hp.2
        subst ha hc
        simp only [and_self, if_true]
        exact (h _ _).symm
      · simp only [hp, if_false]
    · funext a c
      by_cases hp : a.val = x ∧ c.val = y
      · have ha : a = ⟨x, hx1⟩ := Fin.ext hp.1
        have hc : c = ⟨y, hy1⟩ := Fin.ext hp.2
        subst ha hc
        simp only [and_self, if_true]
      · simp only [hp, if_false]

theorem get_string_ok (b : GameBoard W H) (x y : Nat) (hx : x < W) (hy : y < H) :
    b.get_string x y = Except.ok (b.strings ⟨x, hx⟩ ⟨y, hy⟩) := by
  simp [get_string, at2, hx, hy]

/-- C18: display strings mirror cell values. For all dimensions, after construction followed
by any sequence of `set`, `toggle` and `press` calls with in-range coordinates, every call has
returned normally, for every in-range `(x, y)` either `get(x, y)` is `true` and
`get_string(x, y)` is `"-*-"` or `get(x, y)` is `false` and `get_string(x, y)` is `"   "`, and
`update_strings()` returns normally leaving the board as it is. -/
theorem display_strings_mirror_values (W H : Nat) (calls : List Call)
    (hin : ∀ k ∈ calls, (call_target k).1 < W ∧ (call_target k).2 < H) :
    ∃ b0 : GameBoard W H, construct W H = Except.ok b0 ∧
      (run_calls calls b0).1 = Except.ok () ∧
      (∀ x y, x < W → y < H →
        ((run_calls calls b0).2.get x y = Except.ok true ∧
          (run_calls calls b0).2.get_string x y = Except.ok "-*-") ∨
        ((run_calls calls b0).2.get x y = Except.ok false ∧
          (run_calls calls b0).2.get_string x y = Except.ok "   ")) ∧
      update_strings (run_calls calls b0).2 = (Except.ok (), (run_calls calls b0).2) := by
  have h0 : strings_mirror (all_lit W H) := fun _ _ => rfl
  obtain ⟨h1, h2⟩ := run_calls_mirror calls (all_lit W H) hin h0
  refine ⟨all_lit W H, construct_run W H, h1, ?_, update_strings_fixed _ h2⟩
  intro x y hx hy
  rw [get_ok _ x y hx hy, get_string_ok _ x y hx hy, h2 ⟨x, hx⟩ ⟨y, hy⟩]
  cases (run_calls calls (all_lit W H)).2.values ⟨x, hx⟩ ⟨y, hy⟩
  · exact Or.inr ⟨rfl, rfl⟩
  · exact Or.inl ⟨rfl, rfl⟩

theorem display_strings_mirror_values_witness :
    ∃ b0 : GameBoard 3 3, construct 3 3 = Except.ok b0 ∧
      (run_calls [Call.press 1 1, Call.set 0 2 false, Call.toggle 2 1, Call.set 1 1 true]
        b0).1 = Except.ok () ∧
      (∀ x y, x < 3 → y < 3 →
        ((run_calls [Call.press 1 1, Call.set 0 2 false, Call.toggle 2 1, Call.set 1 1 true]
            b0).2.get x y = Except.ok true ∧
          (run_calls [Call.press 1 1, Call.set 0 2 false, Call.toggle 2 1, Call.set 1 1 true]
            b0).2.get_string x y = Except.ok "-*-") ∨
        ((run_calls [Call.press 1 1, Call.set 0 2 false, Call.toggle 2 1, Call.set 1 1 true]
            b0).2.get x y = Except.ok false ∧
          (run_calls [Call.press 1 1, Call.set 0 2 false, Call.toggle 2 1, Call.set 1 1 true]
            b0).2.get_string x y = Except.ok "   ")) ∧
      update_strings
          (run_calls [Call.press 1 1, Call.set 0 2 false, Call.toggle 2 1, Call.set 1 1 true]
            b0).2 =
        (Except.ok (),
          (run_calls [Call.press 1 1, Call.set 0 2 false, Call.toggle 2 1, Call.set 1 1 true]
            b0).2) :=
  display_strings_mirror_values 3 3
    [Call.press 1 1, Call.set 0 2 false, Call.toggle 2 1, Call.set 1 1 true] (by decide)

/-! ## A failing press -/

/-- C19 (as stated, refuted): on the 3x3 board whose counter holds the largest `std::size_t`,
`press(3, 0)` raises the out-of-range error and leaves `move_count == 0`, which is not the
former value plus 1. -/
theorem failing_press_counter_wraps :
    ¬ (3 < 3) ∧
    (press 3 0 ({ all_lit 3 3 with move_count := 18446744073709551615 })).1 =
      Except.error Error.out_of_range ∧
    (press 3 0 ({ all_lit 3 3 with move_count := 18446744073709551615 })).2.move_count = 0 ∧
    ¬ (press 3 0 ({ all_lit 3 3 with move_count := 18446744073709551615 })).2.move_count =
      ({ all_lit 3 3 with move_count := 18446744073709551615 } : GameBoard 3 3).move_count
        + 1 := by
  refine ⟨by decide, ?_⟩
  rw [press_err _ 3 0 (by decide)]
  refine ⟨rfl, ?_, ?_⟩ <;> decide

/-- C19 (amended): a failing press is not atomic with respect to the counter. Called with an
out-of-range coordinate, `press(x, y)` raises the out-of-range error with every cell and every
display string unchanged, but `move_count` has already been set to `(move_count + 1) mod 2^64`
(the former value plus 1 whenever that fits in a `std::size_t`), differs from its former value
and is not rolled back. -/
theorem failing_press_not_atomic (b : GameBoard W H) (x y : Nat) (h : W ≤ x ∨ H ≤ y) :
    (press x y b).1 = Except.error Error.out_of_range ∧
    (press x y b).2.values = b.values ∧
    (press x y b).2.strings = b.strings ∧
    (press x y b).2.move_count = (b.move_count + 1) % SIZE_MOD ∧
    (b.move_count + 1 < SIZE_MOD → (press x y b).2.move_count = b.move_count + 1) ∧
    (press x y b).2.move_count ≠ b.move_count := by
  rw [press_err b x y (by omega)]
  refine ⟨rfl, rfl, rfl, rfl, fun hlt => Nat.mod_eq_of_lt hlt, ?_⟩
  simp only [SIZE_MOD]
  omega

theorem failing_press_not_atomic_witness :
    (press 1 5 (all_lit 3 3)).1 = Except.error Error.out_of_range ∧
    (press 1 5 (all_lit 3 3)).2.values = (all_lit 3 3).values ∧
    (press 1 5 (all_lit 3 3)).2.strings = (all_lit 3 3).strings ∧
    (press 1 5 (all_lit 3 3)).2.move_count = ((all_lit 3 3).move_count + 1) % SIZE_MOD ∧
    ((all_lit 3 3).move_count + 1 < SIZE_MOD →
      (press 1 5 (all_lit 3 3)).2.move_count = (all_lit 3 3).move_count + 1) ∧
    (press 1 5 (all_lit 3 3)).2.move_count ≠ (all_lit 3 3).move_count :=
  failing_press_not_atomic (all_lit 3 3) 1 5 (by decide)
end GameBoard

end LightsOut
